import Mathlib

/-!
# ecp: key-pair creation and parsing command line tool

A shallow embedding of `cmd/main.go` and `cmd/utils.go`.

The two command handlers (`createAccount`, `parseAccount`) and the directory
helpers of `utils.go` are glue code over external services: the terminal, the
file system, the clock, the key generator and the keystore library.  Each
external call is recorded as an `Event`; what the outside world answers is read
from a `World` (one process run) and a `Lib` (the deterministic library
functions).  A handler is a function from these to the list of events it
performs and the way it ends.

Paths are built with Go's `path/filepath`; its `Join`, `Clean` and `Dir` are
embedded here for both of its forms, the one of the windows build and the one
of the builds whose separator is `/`.
-/

namespace Ecp

/-! ## path/filepath

`filepath.Join`, `Clean` and `Dir` are chosen at build time by `GOOS`: the
windows build knows two separators and volume names, every other build has the
single separator `/`.  The functions below work on the characters of a path;
the separators, the colon and the dot are single bytes, so this agrees with
Go's byte positions.  The windows functions follow `path_windows.go` and
`path.go` of the Go releases current when the repository was written (1.10 and
1.11).  Later releases also skip empty elements that follow a bare drive such
as `C:` in `Join`, which changes nothing when the elements after the first are
not empty, as in every use below. -/

/-- The function `os.IsPathSeparator`: `/`, and on windows also `\`. -/
def isSep (win : Bool) (c : Char) : Bool :=
  c = '/' || (win && c = '\\')

/-- The constant `filepath.Separator`. -/
def sepChar (win : Bool) : Char :=
  if win then '\\' else '/'

/-- The components of a path: the pieces between consecutive separators. -/
def splitSep (win : Bool) : List Char → List (List Char)
  | [] => [[]]
  | c :: cs =>
    if isSep win c then [] :: splitSep win cs
    else
      match splitSep win cs with
      | [] => [[c]]
      | x :: xs => (c :: x) :: xs

/-- Components written back with one separator between neighbours. -/
def joinSep (win : Bool) : List (List Char) → List Char
  | [] => []
  | [x] => x
  | x :: y :: rest => x ++ sepChar win :: joinSep win (y :: rest)

/-- One round of the loop of `filepath.Clean`, on the output seen as a stack of
components (most recent first).  An empty component and `.` are dropped; `..`
removes the last real component when there is one, is dropped at the root, and
is kept otherwise; any other component is appended. -/
def cleanStep (rooted : Bool) (out : List (List Char)) (comp : List Char) : List (List Char) :=
  if comp = [] then out
  else if comp = ['.'] then out
  else if comp = ['.', '.'] then
    match out with
    | [] => if rooted then [] else [comp]
    | top :: rest => if top = ['.', '.'] then comp :: out else rest
  else comp :: out

/-- The output buffer of `filepath.Clean` as a string: the leading separator of
a rooted path, the components, and `.` when nothing was written. -/
def render (win : Bool) (rooted : Bool) (out : List (List Char)) : List Char :=
  let body := joinSep win out.reverse
  let res := if rooted then sepChar win :: body else body
  if res = [] then ['.'] else res

/-- Whether a path starts with a separator. -/
def isRooted (win : Bool) (path : List Char) : Bool :=
  match path with
  | c :: _ => isSep win c
  | [] => false

/-- The loop of `filepath.Clean` on a non-empty path without volume name. -/
def cleanLoop (win : Bool) (path : List Char) : List Char :=
  render win (isRooted win path)
    ((splitSep win path).foldl (cleanStep (isRooted win path)) [])

/-- The function `filepath.Clean` of the builds with the separator `/`. -/
def cleanChars (path : List Char) : List Char :=
  if path = [] then ['.'] else cleanLoop false path

/-- An ASCII letter, as a drive letter is. -/
def isLetter (c : Char) : Bool :=
  ('a' ≤ c && c ≤ 'z') || ('A' ≤ c && c ≤ 'Z')

/-- The function `volumeNameLen` of `path_windows.go`: 2 for a drive letter and
a colon; for `\\host\share` the length up to the end of the share name, when
the host name is not empty and does not start with a dot, and the share name
neither; 0 otherwise. -/
def volumeNameLen (path : List Char) : Nat :=
  match path with
  | c :: ':' :: _ => if isLetter c then 2 else 0
  | s1 :: s2 :: rest =>
    if isSep true s1 && isSep true s2 then
      match rest.takeWhile (fun c => !isSep true c) with
      | [] => 0
      | h0 :: host =>
        if h0 = '.' then 0
        else
          match rest.dropWhile (fun c => !isSep true c) with
          | _ :: c :: more =>
            if isSep true c || c = '.' then 0
            else 2 + (h0 :: host).length + 1 + ((c :: more).takeWhile (fun c => !isSep true c)).length
          | _ => 0
    else 0
  | _ => 0

/-- The function `filepath.FromSlash` on windows. -/
def fromSlash (path : List Char) : List Char :=
  path.map (fun c => if c = '/' then '\\' else c)

/-- The function `filepath.Clean` of the windows build: the volume name is kept
and what follows it is cleaned. -/
def winCleanChars (path : List Char) : List Char :=
  if path.drop (volumeNameLen path) = [] then
    if volumeNameLen path > 1 ∧ path.get? 1 ≠ some ':' then fromSlash path
    else path ++ ['.']
  else
    fromSlash (path.take (volumeNameLen path) ++ cleanLoop true (path.drop (volumeNameLen path)))

/-- The function `isUNC` of `path_windows.go`. -/
def isUNC (path : List Char) : Bool :=
  volumeNameLen path > 2

/-- The function `strings.Join(elem, string(Separator))`. -/
def joinElems (win : Bool) : List String → List Char
  | [] => []
  | [x] => x.data
  | x :: y :: rest => x.data ++ sepChar win :: joinElems win (y :: rest)

/-- The function `join` of `path_unix.go`: leading empty elements are skipped,
the rest is joined with the separator and cleaned; with no non-empty element
the result is the empty string. -/
def unixJoin : List String → String
  | [] => ""
  | e :: rest => if e ≠ "" then ⟨cleanChars (joinElems false (e :: rest))⟩ else unixJoin rest

/-- The test `len(elem[0]) == 2 && elem[0][1] == ':'` of `joinNonEmpty`: two
bytes, the second a colon. -/
def isBareDrive (e : List Char) : Bool :=
  match e with
  | [c, ':'] => c.toNat < 128
  | _ => false

/-- The function `joinNonEmpty` of `path_windows.go`, for a non-empty first
element `e`: a bare drive such as `C:` is joined without a separator; otherwise
the elements are joined and cleaned, and a result that is a UNC path although
the first element is not one is put together again from its cleaned parts. -/
def winJoinNonEmpty (e : String) (rest : List String) : List Char :=
  if isBareDrive e.data then
    winCleanChars (e.data ++ joinElems true rest)
  else if !isUNC (winCleanChars (joinElems true (e :: rest))) then
    winCleanChars (joinElems true (e :: rest))
  else if isUNC (winCleanChars e.data) then
    winCleanChars (joinElems true (e :: rest))
  else if (winCleanChars e.data).getLast? = some '\\' then
    winCleanChars e.data ++ winCleanChars (joinElems true rest)
  else
    winCleanChars e.data ++ '\\' :: winCleanChars (joinElems true rest)

/-- The function `join` of `path_windows.go`. -/
def winJoin : List String → String
  | [] => ""
  | e :: rest => if e ≠ "" then ⟨winJoinNonEmpty e rest⟩ else winJoin rest

/-- The function `filepath.Join` of the build for `goos`. -/
def Join (goos : String) (elem : List String) : String :=
  if goos = "windows" then winJoin elem else unixJoin elem

/-- The function `filepath.Clean` of the build for `goos`. -/
def Clean (goos : String) (path : String) : String :=
  if goos = "windows" then ⟨winCleanChars path.data⟩ else ⟨cleanChars path.data⟩

/-- The part of a path up to and including its last separator (empty when
there is none): `path[:i+1]` after the backward scan of `filepath.Dir`. -/
def upToLastSep (win : Bool) (path : List Char) : List Char :=
  (path.reverse.dropWhile (fun c => !isSep win c)).reverse

/-- The function `filepath.Dir` of the windows build: the volume name followed
by the cleaned rest of the path up to its last separator. -/
def winDir (path : List Char) : List Char :=
  if winCleanChars (upToLastSep true (path.drop (volumeNameLen path))) = ['.']
      ∧ volumeNameLen path > 2 then
    path.take (volumeNameLen path)
  else
    path.take (volumeNameLen path)
      ++ winCleanChars (upToLastSep true (path.drop (volumeNameLen path)))

/-- The function `filepath.Dir` of the build for `goos`. -/
def Dir (goos : String) (path : String) : String :=
  if goos = "windows" then ⟨winDir path.data⟩ else ⟨cleanChars (upToLastSep false path.data)⟩

/-- A string usable as a single file name on the build for `goos`: not empty,
not `.` or `..`, and without a separator. -/
def isFileName (goos : String) (s : String) : Bool :=
  s.data ≠ [] && s.data ≠ ['.'] && s.data ≠ ['.', '.'] &&
    s.data.all (fun c => !isSep (goos = "windows") c)

/-! ## hexutil.Encode -/

/-- One lowercase hexadecimal digit. -/
def hexDigit (n : Nat) : Char :=
  if n % 16 < 10 then Char.ofNat (48 + n % 16) else Char.ofNat (87 + n % 16)

/-- A byte sequence; each element is read modulo 256. -/
abbrev Bytes := List Nat

/-- The conversion `string(b)` of a byte sequence, one character per byte. -/
def bytesToString (b : Bytes) : String :=
  ⟨b.map (fun x => Char.ofNat (x % 256))⟩

/-- The function `hexutil.Encode`: `0x` followed by two hex digits per byte. -/
def hexEncode (b : Bytes) : String :=
  ⟨'0' :: 'x' :: b.flatMap (fun x => [hexDigit (x % 256 / 16), hexDigit (x % 256)])⟩

/-! ## Keys and the external library -/

/-- An ECDSA public key (`ecdsa.PublicKey`). -/
structure PublicKey where
  x : Nat
  y : Nat
  deriving DecidableEq, Repr

/-- An ECDSA private key (`ecdsa.PrivateKey`): the scalar with its public key. -/
structure PrivateKey where
  publicKey : PublicKey
  d : Nat
  deriving DecidableEq, Repr

/-- The record `keystore.Key`. -/
structure Key where
  id : Bytes
  address : Bytes
  privateKey : PrivateKey
  deriving DecidableEq, Repr

/-- The deterministic functions of the crypto and keystore libraries.
`encryptKey` takes the random bytes it draws as its last argument. -/
structure Lib where
  pubkeyToAddress : PublicKey → Bytes
  fromECDSA : PrivateKey → Bytes
  encryptKey : Key → String → Nat → Nat → Bytes → Except String Bytes
  decryptKey : Bytes → String → Except String Key

/-- The constant `keystore.StandardScryptN`. -/
def StandardScryptN : Nat := 2 ^ 18

/-- The constant `keystore.StandardScryptP`. -/
def StandardScryptP : Nat := 1

/-! ## The outside world of one process run -/

/-- What one call of `readPasswordFromNewTTY` meets. -/
inductive TtyResult where
  | openFailed (err : String)
  | readFailed (err : String)
  | ok (pass : String)
  deriving DecidableEq, Repr

/-- The answers of the environment during one run of the program. -/
structure World where
  /-- The value of `runtime.GOOS`. -/
  goos : String
  /-- The value of `os.Getenv("HOME")`. -/
  envHome : String
  /-- The result of `user.Current()`: the home directory or an error. -/
  userCurrent : Except String String
  /-- The result of `isatty.IsTerminal(os.Stdout.Fd())`. -/
  stdoutIsTerminal : Bool
  /-- Whether stdout and stderr can be inspected and are the same file. -/
  stdoutSameAsStderr : Bool
  /-- The result of `crypto.GenerateKey()`. -/
  generateKey : Except String PrivateKey
  /-- The result of `uuid.NewRandom()`. -/
  uuid : Bytes
  /-- The random bytes drawn by `keystore.EncryptKey`. -/
  rand : Bytes
  /-- What the call of `readPasswordFromNewTTY` showing a given prompt meets
  (a run shows each prompt at most once). -/
  tty : String → TtyResult
  /-- The result of the n-th evaluation of `time.Now().String()`. -/
  now : Nat → String
  /-- The error of `os.MkdirAll(path, 0700)`, if any. -/
  mkdirAll : String → Option String
  /-- The error of `ioutil.WriteFile(path, data, 0600)`, if any. -/
  writeFile : String → Bytes → Option String
  /-- The error of `crypto.SaveECDSA(path, key)`, if any. -/
  saveECDSA : String → PrivateKey → Option String
  /-- The result of `ioutil.ReadFile(path)`. -/
  readFile : String → Except String Bytes
  /-- The result of `crypto.LoadECDSA(path)`. -/
  loadECDSA : String → Except String PrivateKey

/-- Where `fatal` writes. -/
inductive Writer where
  | stdout
  | stderr
  | both
  deriving DecidableEq, Repr

/-- An external call made by the program. -/
inductive Event where
  | println (line : String)
  | generateKey
  | ttyOpen
  | ttyPrompt (prompt : String)
  | ttyRead
  | ttyClose
  | encryptKey (key : Key) (auth : String) (scryptN scryptP : Nat)
  | decryptKey (keyjson : Bytes) (auth : String)
  | mkdirAll (path : String) (perm : Nat)
  | writeFile (path : String) (data : Bytes) (perm : Nat)
  | saveECDSA (path : String) (key : PrivateKey)
  | readFile (path : String)
  | loadECDSA (path : String)
  | fatalPrint (w : Writer) (msg : String)
  deriving DecidableEq, Repr

/-- How a run ends: the handler returns (`none` is Go's `nil` error) or the
process exits through `os.Exit`. -/
inductive Stop where
  | ret (err : Option String)
  | exit (code : Nat)
  deriving DecidableEq, Repr

/-- The state threaded through a run: the events so far, and how many times the
clock has been read. -/
structure St where
  events : List Event
  clock : Nat
  deriving DecidableEq, Repr

/-- The result of a piece of program: a value, or the end of the run. -/
inductive Res (α : Type) where
  | ok (a : α) (s : St)
  | stop (o : Stop) (s : St)

/-- A piece of program. -/
def Prog (α : Type) : Type := St → Res α

/-- Sequencing: the second piece runs only when the first did not end the run. -/
def Prog.bind {α β : Type} (m : Prog α) (f : α → Prog β) : Prog β :=
  fun s =>
    match m s with
    | .ok a s1 => f a s1
    | .stop o s1 => .stop o s1

/-- A piece of program that only yields a value. -/
def Prog.pure {α : Type} (a : α) : Prog α := fun s => .ok a s

instance : Monad Prog where
  pure := Prog.pure
  bind := Prog.bind

/-- Record one event. -/
def emit (e : Event) : Prog Unit :=
  fun s => .ok () { s with events := s.events ++ [e] }

/-- The statement `return err` of a handler. -/
def returnErr {α : Type} (err : Option String) : Prog α :=
  fun s => .stop (.ret err) s

/-- The call `os.Exit(code)`. -/
def osExit {α : Type} (code : Nat) : Prog α :=
  fun s => .stop (.exit code) s

/-- The call `fmt.Println` on stdout, with its operands already joined. -/
def println (line : String) : Prog Unit := emit (.println line)

/-- The call `time.Now().String()`. -/
def timeNowString (w : World) : Prog String :=
  fun s => .ok (w.now s.clock) { s with clock := s.clock + 1 }

/-- The events and the end of a complete run of a handler. -/
structure Run where
  events : List Event
  outcome : Stop
  deriving DecidableEq, Repr

/-- The state a handler starts from. -/
def St.init : St := { events := [], clock := 0 }

/-- Run a handler from the initial state; reaching the end of the body is the
final `return` of the value the body yields. -/
def runHandler (p : Prog (Option String)) : Run :=
  match p St.init with
  | .ok e s => { events := s.events, outcome := .ret e }
  | .stop o s => { events := s.events, outcome := o }

/-! ## cmd/utils.go -/

/-- The function `homeDir`. -/
def homeDir (w : World) : String :=
  if w.envHome ≠ "" then w.envHome
  else
    match w.userCurrent with
    | .ok home => home
    | .error _ => ""

/-- The function `defaultDataDir`. -/
def defaultDataDir (w : World) : String :=
  if homeDir w ≠ "" then
    if w.goos = "darwin" then
      Join w.goos [homeDir w, "Library", "Application Support", "Account"]
    else if w.goos = "windows" then
      Join w.goos [homeDir w, "AppData", "Roaming", "Account"]
    else
      Join w.goos [homeDir w, "Account"]
  else ""

/-- The writer `fatal` chooses: stdout on windows; elsewhere stderr when stdout
and stderr are the same file, and both otherwise. -/
def fatalWriter (w : World) : Writer :=
  if w.goos = "windows" then .stdout
  else if w.stdoutSameAsStderr then .stderr
  else .both

/-- The function `fatal`: print on the chosen writer and exit with status 1. -/
def fatal {α : Type} (w : World) (msg : String) : Prog α := do
  emit (.fatalPrint (fatalWriter w) ("Fatal: " ++ msg ++ "\n"))
  osExit 1

/-- The call `os.MkdirAll(path, 0700)` with the error check that follows it in
`utils.go`: on error, `fatal` with the message built from `what`. -/
def mkdirAllOrFatal (w : World) (what : String) (path : String) : Prog Unit := do
  emit (.mkdirAll path 0o700)
  match w.mkdirAll path with
  | some err => fatal w ("create " ++ what ++ " dir [" ++ path ++ "]: " ++ err)
  | none => pure ()

/-- The function `makeDefaultDir`. -/
def makeDefaultDir (w : World) : Prog Unit :=
  if homeDir w ≠ "" then do
    let accountPath :=
      if w.goos = "darwin" then
        Join w.goos [homeDir w, "Library", "Application Support", "Account"]
      else if w.goos = "windows" then
        Join w.goos [homeDir w, "AppData", "Roaming", "Account"]
      else
        Join w.goos [homeDir w, "Account"]
    let privPath := Join w.goos [accountPath, "PrivateKey"]
    mkdirAllOrFatal w "private key" privPath
    let keystorePath := Join w.goos [accountPath, "KeyStore"]
    mkdirAllOrFatal w "keystore" keystorePath
  else pure ()

/-- The function `makeKeyStoreDirWithExistPath`. -/
def makeKeyStoreDirWithExistPath (w : World) (path : String) : Prog String := do
  let keystorePath := Join w.goos [path, "KeyStore"]
  mkdirAllOrFatal w "KeyStore" keystorePath
  pure keystorePath

/-- The function `makePrivDirWithExistPath`. -/
def makePrivDirWithExistPath (w : World) (path : String) : Prog String := do
  let pkp := Join w.goos [path, "PrivateKey"]
  mkdirAllOrFatal w "PrivateKey" pkp
  pure pkp

/-- The function `readPasswordFromNewTTY`. -/
def readPasswordFromNewTTY (w : World) (prompt : String) : Prog (Except String String) := do
  emit .ttyOpen
  match w.tty prompt with
  | .openFailed err => pure (.error err)
  | .readFailed err => do
    emit (.ttyPrompt prompt)
    emit .ttyRead
    emit .ttyClose
    pure (.error err)
  | .ok pass => do
    emit (.ttyPrompt prompt)
    emit .ttyRead
    emit .ttyClose
    pure (.ok pass)

/-! ## cmd/main.go -/

/-- The flags of the `create` command. -/
structure CreateCtx where
  priv : Bool
  keystore : Bool
  exportFlag : Bool
  dir : String
  deriving DecidableEq, Repr

/-- The flags of the `parse` command. -/
structure ParseCtx where
  priv : String
  keystore : String
  deriving DecidableEq, Repr

/-- The message printed when no flag selects what to do. -/
def shouldSpecify : String := "should specify `priv` or `keystore`"

/-- The idiom `if err != nil { return err }` after a call. -/
def orReturn {α : Type} : Except String α → Prog α
  | .error err => returnErr (some err)
  | .ok a => pure a

/-- The idiom `if err := f(); err != nil { return err }`. -/
def returnIfError : Option String → Prog Unit
  | some err => returnErr (some err)
  | none => pure ()

/-- The result of `crypto.GenerateKey()` with the check of lines 102 to 105. -/
def generateKeyOrReturn (w : World) : Prog PrivateKey := do
  emit .generateKey
  match w.generateKey with
  | .error err => do
    println ("generate account failed: " ++ err)
    returnErr (some err)
  | .ok k => pure k

/-- The path the keystore is written to (main.go, lines 136 to 139). -/
def keystorePath (w : World) (ctx : CreateCtx) : Prog String := do
  let ts ← timeNowString w
  let kp := Join w.goos [defaultDataDir w, "KeyStore", ts]
  if ctx.dir ≠ "" then do
    let d ← makeKeyStoreDirWithExistPath w ctx.dir
    let ts1 ← timeNowString w
    pure (Join w.goos [d, ts1])
  else pure kp

/-- The export of the keystore (main.go, lines 136 to 144). -/
def exportKeystore (w : World) (ctx : CreateCtx) (keyjson : Bytes) : Prog Unit := do
  let kp ← keystorePath w ctx
  emit (.writeFile kp keyjson 0o600)
  returnIfError (w.writeFile kp keyjson)
  println ("KeyStore has been saved at: " ++ kp)
  println "================================="

/-- The output of the keystore (main.go, lines 130 to 145): printed when
stdout is a terminal, written to a file when `export` is set. -/
def keystoreOutput (w : World) (ctx : CreateCtx) (keyjson : Bytes) : Prog Unit := do
  (if w.stdoutIsTerminal then do
      println "========= JSON keystore ========="
      println (bytesToString keyjson)
      println "================================="
    else pure ())
  (if ctx.exportFlag then exportKeystore w ctx keyjson else pure ())

/-- The `if ctx.Bool("keystore")` block of `createAccount` (main.go, lines 107
to 146), for the generated key `privKey`. -/
def keystoreBlock (L : Lib) (w : World) (ctx : CreateCtx) (privKey : PrivateKey) : Prog Unit := do
  let password ← orReturn (← readPasswordFromNewTTY w "Enter passphrase: ")
  (if password = "" then returnErr (some "non-empty passphrase required") else pure ())
  let confirm ← orReturn (← readPasswordFromNewTTY w "Confirm passphrase: ")
  (if password ≠ confirm then returnErr (some "passphrase confirmation mismatch") else pure ())
  let key : Key :=
    { privateKey := privKey
      address := L.pubkeyToAddress privKey.publicKey
      id := w.uuid }
  emit (.encryptKey key password StandardScryptN StandardScryptP)
  let keyjson ← orReturn (L.encryptKey key password StandardScryptN StandardScryptP w.rand)
  keystoreOutput w ctx keyjson

/-- The path the private key is saved to (main.go, lines 155 to 158). -/
def privKeyPath (w : World) (ctx : CreateCtx) : Prog String := do
  let ts ← timeNowString w
  let privPath := Join w.goos [defaultDataDir w, "PrivateKey", ts]
  if ctx.dir ≠ "" then do
    let d ← makePrivDirWithExistPath w ctx.dir
    let ts1 ← timeNowString w
    pure (Join w.goos [d, "PrivateKey", ts1])
  else pure privPath

/-- The export of the private key (main.go, lines 155 to 164). -/
def exportPriv (w : World) (ctx : CreateCtx) (privKey : PrivateKey) : Prog Unit := do
  let privPath ← privKeyPath w ctx
  emit (.saveECDSA privPath privKey)
  (match w.saveECDSA privPath privKey with
    | some err => do
      println ("save private key failed: " ++ err)
      returnErr (some err)
    | none => pure ())
  println ("private key has been saved at: " ++ privPath)
  println "================================="

/-- The `if ctx.Bool("priv")` block of `createAccount` (main.go, lines 148 to
166), for the generated key `privKey`. -/
def privBlock (L : Lib) (w : World) (ctx : CreateCtx) (privKey : PrivateKey) : Prog Unit := do
  println "==== your private key of hex ===="
  println (hexEncode (L.fromECDSA privKey))
  println "========= your address =========="
  println (hexEncode (L.pubkeyToAddress privKey.publicKey))
  println "================================="
  (if ctx.exportFlag then exportPriv w ctx privKey else pure ())

/-- The body of `createAccount`. -/
def createAccountBody (L : Lib) (w : World) (ctx : CreateCtx) : Prog (Option String) := do
  (if !ctx.priv && !ctx.keystore then do
      println shouldSpecify
      returnErr none
    else pure ())
  let privKey ← generateKeyOrReturn w
  (if ctx.keystore then keystoreBlock L w ctx privKey else pure ())
  (if ctx.priv then privBlock L w ctx privKey else pure ())
  pure none

/-- The handler `createAccount`, run as a whole. -/
def createAccount (L : Lib) (w : World) (ctx : CreateCtx) : Run :=
  runHandler (createAccountBody L w ctx)

/-- The `if ctx.String("priv") != ""` block of `parseAccount` (main.go, lines
177 to 186); it ends the handler. -/
def parsePriv (L : Lib) (w : World) (ctx : ParseCtx) : Prog Unit := do
  emit (.loadECDSA ctx.priv)
  let pk ← orReturn (w.loadECDSA ctx.priv)
  println "=====  your address ===="
  println (hexEncode (L.pubkeyToAddress pk.publicKey))
  println "========================"
  returnErr none

/-- The `if ctx.String("keystore") != ""` block of `parseAccount` (main.go,
lines 188 to 206). -/
def parseKeystore (L : Lib) (w : World) (ctx : ParseCtx) : Prog Unit := do
  emit (.readFile ctx.keystore)
  let b ← orReturn (w.readFile ctx.keystore)
  let password ← orReturn (← readPasswordFromNewTTY w "Enter passphrase: ")
  emit (.decryptKey b password)
  let key ← orReturn (L.decryptKey b password)
  println "=====  your private key ===="
  println (hexEncode (L.fromECDSA key.privateKey))
  println "======   your address  ====="
  println (hexEncode key.address)
  println "============================"

/-- The body of `parseAccount`. -/
def parseAccountBody (L : Lib) (w : World) (ctx : ParseCtx) : Prog (Option String) := do
  (if ctx.priv = "" && ctx.keystore = "" then do
      println shouldSpecify
      returnErr none
    else pure ())
  (if ctx.priv ≠ "" then parsePriv L w ctx else pure ())
  (if ctx.keystore ≠ "" then parseKeystore L w ctx else pure ())
  pure none

/-- The handler `parseAccount`, run as a whole. -/
def parseAccount (L : Lib) (w : World) (ctx : ParseCtx) : Run :=
  runHandler (parseAccountBody L w ctx)

/-- The run of `makeDefaultDir` as called first in `main`. -/
def runMakeDefaultDir (w : World) : Run :=
  runHandler (do makeDefaultDir w; pure none)

/-! ## Vocabulary of the statements -/

/-- The state in which a piece of program leaves the run. -/
def Res.state {α : Type} : Res α → St
  | .ok _ s => s
  | .stop _ s => s

/-- A piece of program only adds events satisfying `P`; when it ends the run,
the way it ends satisfies `Q`, and otherwise its value satisfies `R`. -/
def Spec {α : Type} (P : Event → Prop) (Q : Stop → Prop) (R : α → Prop) (m : Prog α) : Prop :=
  ∀ s, (∃ evs, (m s).state.events = s.events ++ evs ∧ ∀ e ∈ evs, P e) ∧
    match m s with
    | .ok a _ => R a
    | .stop o _ => Q o

/-- An event that changes the file system: a directory creation or a file write. -/
def Event.isFsWrite : Event → Bool
  | .mkdirAll _ _ => true
  | .writeFile _ _ _ => true
  | .saveECDSA _ _ => true
  | _ => false

/-- A request to the key generator. -/
def Event.isGenerateKey : Event → Bool
  | .generateKey => true
  | _ => false

/-- A use of the terminal for a passphrase. -/
def Event.isTty : Event → Bool
  | .ttyOpen => true
  | .ttyPrompt _ => true
  | .ttyRead => true
  | .ttyClose => true
  | _ => false

/-- A line printed on stdout. -/
def Event.isPrintln : Event → Bool
  | .println _ => true
  | _ => false

/-- A call of `keystore.EncryptKey`. -/
def Event.isEncryptKey : Event → Bool
  | .encryptKey _ _ _ _ => true
  | _ => false

/-- The record `createAccount` hands to `keystore.EncryptKey` for a key. -/
def keystoreKeyOf (L : Lib) (w : World) (privKey : PrivateKey) : Key :=
  { privateKey := privKey
    address := L.pubkeyToAddress privKey.publicKey
    id := w.uuid }

/-- What the events of the keystore block of `createAccount` can be, for the
generated key `k`. -/
def KeystoreAllows (L : Lib) (w : World) (ctx : CreateCtx) (k : PrivateKey) : Event → Prop
  | .println _ => True
  | .ttyOpen => True
  | .ttyPrompt p => p = "Enter passphrase: " ∨ p = "Confirm passphrase: "
  | .ttyRead => True
  | .ttyClose => True
  | .encryptKey key auth n p =>
    key = keystoreKeyOf L w k ∧ auth ≠ "" ∧
      w.tty "Enter passphrase: " = .ok auth ∧ w.tty "Confirm passphrase: " = .ok auth ∧
      n = StandardScryptN ∧ p = StandardScryptP
  | .mkdirAll path perm =>
    ctx.exportFlag = true ∧ ctx.dir ≠ "" ∧ perm = 0o700 ∧ path = Join w.goos [ctx.dir, "KeyStore"]
  | .writeFile path data perm =>
    ctx.exportFlag = true ∧ perm = 0o600 ∧
      (∃ auth, w.tty "Enter passphrase: " = .ok auth ∧
        L.encryptKey (keystoreKeyOf L w k) auth StandardScryptN StandardScryptP w.rand
          = .ok data) ∧
      ∃ n, path =
        if ctx.dir ≠ "" then Join w.goos [Join w.goos [ctx.dir, "KeyStore"], w.now n]
        else Join w.goos [defaultDataDir w, "KeyStore", w.now n]
  | .fatalPrint _ _ => ctx.exportFlag = true ∧ ctx.dir ≠ ""
  | _ => False

/-- What the events of the private key block of `createAccount` can be, for the
generated key `k`. -/
def PrivAllows (w : World) (ctx : CreateCtx) (k : PrivateKey) : Event → Prop
  | .println _ => True
  | .mkdirAll path perm =>
    ctx.exportFlag = true ∧ ctx.dir ≠ "" ∧ perm = 0o700 ∧ path = Join w.goos [ctx.dir, "PrivateKey"]
  | .saveECDSA path key =>
    ctx.exportFlag = true ∧ key = k ∧
      ∃ n, path =
        if ctx.dir ≠ "" then Join w.goos [Join w.goos [ctx.dir, "PrivateKey"], "PrivateKey", w.now n]
        else Join w.goos [defaultDataDir w, "PrivateKey", w.now n]
  | .fatalPrint _ _ => ctx.exportFlag = true ∧ ctx.dir ≠ ""
  | _ => False

/-- What the events after key generation in a run of `createAccount` can be,
for the generated key `k`: those of the keystore block when `keystore` is set
and those of the private key block when `priv` is set. -/
def CreateAllows (L : Lib) (w : World) (ctx : CreateCtx) (k : PrivateKey) (e : Event) : Prop :=
  (ctx.keystore = true ∧ KeystoreAllows L w ctx k e) ∨ (ctx.priv = true ∧ PrivAllows w ctx k e)

/-- The lines the private key block prints first. -/
def privPrints (L : Lib) (k : PrivateKey) : List Event :=
  [ .println "==== your private key of hex ====",
    .println (hexEncode (L.fromECDSA k)),
    .println "========= your address ==========",
    .println (hexEncode (L.pubkeyToAddress k.publicKey)),
    .println "=================================" ]

/-- The events of one successful call of `readPasswordFromNewTTY`. -/
def ttyEvents (prompt : String) : List Event :=
  [.ttyOpen, .ttyPrompt prompt, .ttyRead, .ttyClose]

/-- A piece of a path without a separator. -/
def NoSep (win : Bool) (c : List Char) : Prop :=
  ∀ x ∈ c, isSep win x = false

/-- A path component that `filepath.Clean` keeps as it is: not empty, not `.`
or `..`, and without a separator. -/
def PlainComp (win : Bool) (c : List Char) : Prop :=
  c ≠ [] ∧ c ≠ ['.'] ∧ c ≠ ['.', '.'] ∧ NoSep win c

/-- The shape of the output stack of `filepath.Clean` (most recent component
first): plain components on top of `..` components, the latter only in a path
that is not rooted. -/
def NormalStack (win : Bool) (rooted : Bool) : List (List Char) → Prop
  | [] => True
  | c :: st =>
    (PlainComp win c ∧ NormalStack win rooted st) ∨
      (c = ['.', '.'] ∧ rooted = false ∧ ∀ x ∈ st, x = ['.', '.'])

/-- A cleaned path with at least one component, on a build with the separator
`/`: the string `path` is the rendering of the non-empty normal stack `st`. -/
def CleanForm (rooted : Bool) (st : List (List Char)) (path : String) : Prop :=
  NormalStack false rooted st ∧ st ≠ [] ∧ path.data = render false rooted st

/-- The function `filepath.IsAbs` of the windows build: a volume name followed
by a separator. -/
def winIsAbs (path : String) : Bool :=
  volumeNameLen path.data > 0 && isRooted true (path.data.drop (volumeNameLen path.data))

/-- A volume name that stays the volume name of the path whatever follows its
separator. -/
def SepStable (vol : List Char) : Prop :=
  2 ≤ vol.length ∧
    ∀ s rest, isSep true s = true → volumeNameLen (vol ++ s :: rest) = vol.length

/-- A cleaned absolute windows path with at least one component: the volume
name `vol`, written with `\`, and the rendering of the non-empty normal stack
`st` of a rooted path. -/
def VolForm (vol : List Char) (st : List (List Char)) (path : String) : Prop :=
  SepStable vol ∧ (∀ x ∈ vol, x ≠ '/') ∧ NormalStack true true st ∧ st ≠ [] ∧
    path.data = vol ++ render true true st

/-! ## A concrete library and world, for checking the statements on a run -/

/-- A stand-in for the crypto and keystore libraries: addresses and encodings
are short, and the keystore holds the key next to the passphrase. -/
def sampleLib : Lib where
  pubkeyToAddress := fun pk => [pk.x % 256, pk.y % 256]
  fromECDSA := fun k => [k.d % 256]
  encryptKey := fun key auth _ _ _ =>
    .ok (key.privateKey.d :: key.privateKey.publicKey.x :: key.privateKey.publicKey.y ::
      auth.data.map Char.toNat)
  decryptKey := fun keyjson auth =>
    match keyjson with
    | d :: x :: y :: pass =>
      if pass = auth.data.map Char.toNat then
        .ok { id := [], address := [x % 256, y % 256], privateKey := ⟨⟨x, y⟩, d⟩ }
      else .error "could not decrypt key with given passphrase"
    | _ => .error "unexpected end of JSON input"

/-- The key the sample world generates. -/
def sampleKey : PrivateKey := ⟨⟨3, 4⟩, 5⟩

/-- A world on Linux with home `/home/u` where every call succeeds; the
terminal answers `enter` to the first prompt and `confirm` to the second. -/
def sampleWorld (enter confirm : String) : World where
  goos := "linux"
  envHome := "/home/u"
  userCurrent := .error "user: Current not implemented"
  stdoutIsTerminal := false
  stdoutSameAsStderr := false
  generateKey := .ok sampleKey
  uuid := [1]
  rand := [2]
  tty := fun prompt => if prompt = "Enter passphrase: " then .ok enter else .ok confirm
  now := fun n => "2026-11-04 10:05:0" ++ toString n ++ " +0000 UTC"
  mkdirAll := fun _ => none
  writeFile := fun _ _ => none
  saveECDSA := fun _ _ => none
  readFile := fun path =>
    if path = "/home/u/Account/KeyStore/2026-11-04 10:05:00 +0000 UTC" then .ok [5, 3, 4, 112, 119]
    else .error "no such file or directory"
  loadECDSA := fun path =>
    if path = "/home/u/key" then .ok sampleKey else .error "no such file or directory"

/-- A world on windows with the given `HOME` where every call succeeds. -/
def windowsWorld (home : String) : World :=
  { sampleWorld "pw" "pw" with goos := "windows", envHome := home }

/-- The sample world where `os.MkdirAll` fails on the one directory `denied`. -/
def deniedWorld (denied : String) : World :=
  { sampleWorld "pw" "pw" with
    mkdirAll := fun path => if path = denied then some "permission denied" else none }
/-! ## Rules for reasoning about pieces of program -/

section rules
variable {α β : Type} {P : Event → Prop} {Q : Stop → Prop}

theorem spec_pure (R : α → Prop) (a : α) (h : R a) : Spec P Q R (pure a : Prog α) := by
  intro s
  exact ⟨⟨[], by simp [pure, Prog.pure, Res.state], by simp⟩, h⟩

theorem spec_returnErr (R : α → Prop) (err : Option String) (h : Q (.ret err)) :
    Spec P Q R (returnErr err : Prog α) := by
  intro s
  exact ⟨⟨[], by simp [returnErr, Res.state], by simp⟩, h⟩

theorem spec_osExit (R : α → Prop) (code : Nat) (h : Q (.exit code)) :
    Spec P Q R (osExit code : Prog α) := by
  intro s
  exact ⟨⟨[], by simp [osExit, Res.state], by simp⟩, h⟩

theorem spec_emit (e : Event) (h : P e) : Spec P Q (fun _ => True) (emit e) := by
  intro s
  exact ⟨⟨[e], by simp [emit, Res.state], by simpa using h⟩, trivial⟩

theorem spec_println (line : String) (h : P (.println line)) :
    Spec P Q (fun _ => True) (println line) := spec_emit _ h

theorem spec_timeNowString (w : World) :
    Spec P Q (fun ts => ∃ n, ts = w.now n) (timeNowString w) := by
  intro s
  exact ⟨⟨[], by simp [timeNowString, Res.state], by simp⟩, ⟨s.clock, rfl⟩⟩

theorem spec_bind {R : α → Prop} {R2 : β → Prop} {m : Prog α} {f : α → Prog β}
    (hm : Spec P Q R m) (hf : ∀ a, R a → Spec P Q R2 (f a)) : Spec P Q R2 (m >>= f) := by
  intro s
  obtain ⟨⟨evs, he, hP⟩, hr⟩ := hm s
  show (∃ evs, (Prog.bind m f s).state.events = s.events ++ evs ∧ ∀ e ∈ evs, P e) ∧
    match Prog.bind m f s with
    | .ok a _ => R2 a
    | .stop o _ => Q o
  unfold Prog.bind
  cases hms : m s with
  | ok a s1 =>
    rw [hms] at he hr
    obtain ⟨⟨evs2, he2, hP2⟩, hr2⟩ := hf a hr s1
    refine ⟨⟨evs ++ evs2, ?_, ?_⟩, hr2⟩
    · simp only [Res.state] at he
      rw [he2, he, List.append_assoc]
    · intro e he
      rcases List.mem_append.1 he with h | h
      · exact hP e h
      · exact hP2 e h
  | stop o s1 =>
    rw [hms] at he hr
    exact ⟨⟨evs, he, hP⟩, hr⟩

theorem spec_mono {P2 : Event → Prop} {Q2 : Stop → Prop} {R R2 : α → Prop} {m : Prog α}
    (hm : Spec P Q R m) (hP : ∀ e, P e → P2 e) (hQ : ∀ o, Q o → Q2 o)
    (hR : ∀ a, R a → R2 a) : Spec P2 Q2 R2 m := by
  intro s
  obtain ⟨⟨evs, he, hPe⟩, h2⟩ := hm s
  refine ⟨⟨evs, he, fun e h => hP e (hPe e h)⟩, ?_⟩
  cases hms : m s with
  | ok a s1 => rw [hms] at h2; exact hR _ h2
  | stop o s1 => rw [hms] at h2; exact hQ _ h2

theorem spec_orReturn (x : Except String α) (h : ∀ err, Q (.ret (some err))) :
    Spec P Q (fun a => x = .ok a) (orReturn x) := by
  cases x with
  | error err => exact spec_returnErr _ _ (h err)
  | ok a => exact spec_pure _ _ rfl

theorem spec_returnIfError (x : Option String) (h : ∀ err, Q (.ret (some err))) :
    Spec P Q (fun _ => x = none) (returnIfError x) := by
  cases x with
  | some err => exact spec_returnErr _ _ (h err)
  | none => exact spec_pure _ _ rfl

theorem spec_guard (c : Prop) [Decidable c] (err : Option String) (h : Q (.ret err)) :
    Spec P Q (fun _ => ¬ c) (if c then returnErr err else pure ()) := by
  by_cases hc : c
  · rw [if_pos hc]; exact spec_returnErr _ _ h
  · rw [if_neg hc]; exact spec_pure _ _ hc

theorem spec_readPassword (w : World) (prompt : String)
    (h1 : P .ttyOpen) (h2 : P (.ttyPrompt prompt)) (h3 : P .ttyRead) (h4 : P .ttyClose) :
    Spec P Q (fun r => ∀ p, r = .ok p → w.tty prompt = .ok p)
      (readPasswordFromNewTTY w prompt) := by
  unfold readPasswordFromNewTTY
  refine spec_bind (spec_emit _ h1) fun _ _ => ?_
  cases hw : w.tty prompt with
  | openFailed err => exact spec_pure _ _ (by simp)
  | readFailed err =>
    exact spec_bind (spec_emit _ h2) fun _ _ => spec_bind (spec_emit _ h3) fun _ _ =>
      spec_bind (spec_emit _ h4) fun _ _ => spec_pure _ _ (by simp)
  | ok pass =>
    exact spec_bind (spec_emit _ h2) fun _ _ => spec_bind (spec_emit _ h3) fun _ _ =>
      spec_bind (spec_emit _ h4) fun _ _ => spec_pure _ _ (by simp)

theorem spec_fatal (w : World) (msg : String) (R : α → Prop)
    (h1 : ∀ o m, P (.fatalPrint o m)) (h2 : Q (.exit 1)) :
    Spec P Q R (fatal w msg : Prog α) := by
  unfold fatal
  exact spec_bind (spec_emit _ (h1 _ _)) fun _ _ => spec_osExit _ _ h2

theorem spec_mkdirAllOrFatal (w : World) (what path : String)
    (h0 : P (.mkdirAll path 0o700)) (h1 : ∀ o m, P (.fatalPrint o m)) (h2 : Q (.exit 1)) :
    Spec P Q (fun _ => w.mkdirAll path = none) (mkdirAllOrFatal w what path) := by
  unfold mkdirAllOrFatal
  refine spec_bind (spec_emit _ h0) fun _ _ => ?_
  cases hw : w.mkdirAll path with
  | some err => exact spec_fatal _ _ _ h1 h2
  | none => exact spec_pure _ _ rfl

end rules

/-! ## The blocks of `createAccount` -/

theorem spec_keystorePath (L : Lib) (w : World) (ctx : CreateCtx) (k : PrivateKey)
    (hx : ctx.exportFlag = true) :
    Spec (KeystoreAllows L w ctx k) (fun o => o ≠ .ret none)
      (fun kp => ∃ n, kp =
        if ctx.dir ≠ "" then Join w.goos [Join w.goos [ctx.dir, "KeyStore"], w.now n]
        else Join w.goos [defaultDataDir w, "KeyStore", w.now n])
      (keystorePath w ctx) := by
  unfold keystorePath
  refine spec_bind (spec_timeNowString w) fun ts hts => ?_
  by_cases hd : ctx.dir = ""
  · obtain ⟨n, rfl⟩ := hts
    simp only [hd, ne_eq, not_true_eq_false, if_false]
    exact spec_pure _ _ ⟨n, rfl⟩
  · simp only [ne_eq, hd, not_false_eq_true, if_true]
    unfold makeKeyStoreDirWithExistPath
    refine spec_bind (spec_bind (spec_mkdirAllOrFatal w _ _ ?_ ?_ ?_) fun _ _ =>
      spec_pure (fun d => d = Join w.goos [ctx.dir, "KeyStore"]) _ rfl) fun d hd2 => ?_
    · exact ⟨hx, hd, rfl, rfl⟩
    · intro _ _; exact ⟨hx, hd⟩
    · simp
    · subst hd2
      refine spec_bind (spec_timeNowString w) fun ts1 hts1 => ?_
      obtain ⟨n, rfl⟩ := hts1
      exact spec_pure _ _ ⟨n, rfl⟩

theorem spec_exportKeystore (L : Lib) (w : World) (ctx : CreateCtx) (k : PrivateKey)
    (keyjson : Bytes) (hx : ctx.exportFlag = true)
    (hj : ∃ auth, w.tty "Enter passphrase: " = .ok auth ∧
      L.encryptKey (keystoreKeyOf L w k) auth StandardScryptN StandardScryptP w.rand
        = .ok keyjson) :
    Spec (KeystoreAllows L w ctx k) (fun o => o ≠ .ret none) (fun _ => True)
      (exportKeystore w ctx keyjson) := by
  unfold exportKeystore
  refine spec_bind (spec_keystorePath L w ctx k hx) fun kp hkp => ?_
  refine spec_bind (spec_emit _ ⟨hx, rfl, hj, hkp⟩) fun _ _ => ?_
  refine spec_bind (spec_returnIfError _ (by simp)) fun _ _ => ?_
  exact spec_bind (spec_println _ trivial) fun _ _ => spec_println _ trivial

theorem spec_keystoreOutput (L : Lib) (w : World) (ctx : CreateCtx) (k : PrivateKey)
    (keyjson : Bytes)
    (hj : ∃ auth, w.tty "Enter passphrase: " = .ok auth ∧
      L.encryptKey (keystoreKeyOf L w k) auth StandardScryptN StandardScryptP w.rand
        = .ok keyjson) :
    Spec (KeystoreAllows L w ctx k) (fun o => o ≠ .ret none) (fun _ => True)
      (keystoreOutput w ctx keyjson) := by
  unfold keystoreOutput
  refine spec_bind (R := fun _ => True) ?_ fun _ _ => ?_
  · by_cases ht : w.stdoutIsTerminal = true
    · rw [if_pos ht]
      exact spec_bind (spec_println _ trivial) fun _ _ =>
        spec_bind (spec_println _ trivial) fun _ _ => spec_println _ trivial
    · rw [if_neg ht]; exact spec_pure _ _ trivial
  · by_cases hx : ctx.exportFlag = true
    · rw [if_pos hx]
      exact spec_exportKeystore L w ctx k keyjson hx hj
    · rw [if_neg hx]; exact spec_pure _ _ trivial

theorem spec_keystoreBlock (L : Lib) (w : World) (ctx : CreateCtx) (k : PrivateKey) :
    Spec (KeystoreAllows L w ctx k) (fun o => o ≠ .ret none) (fun _ => True)
      (keystoreBlock L w ctx k) := by
  unfold keystoreBlock
  refine spec_bind (spec_readPassword w _ trivial (Or.inl rfl) trivial trivial) fun r1 hr1 => ?_
  refine spec_bind (spec_orReturn r1 (by simp)) fun password hp => ?_
  refine spec_bind (spec_guard _ _ (by simp)) fun _ hne => ?_
  refine spec_bind (spec_readPassword w _ trivial (Or.inr rfl) trivial trivial) fun r2 hr2 => ?_
  refine spec_bind (spec_orReturn r2 (by simp)) fun confirm hc => ?_
  refine spec_bind (spec_guard _ _ (by simp)) fun _ heq => ?_
  have h1 := hr1 _ hp
  have h2 := hr2 _ hc
  have heq2 : password = confirm := not_not.1 heq
  rw [← heq2] at h2
  refine spec_bind (spec_emit _ ⟨rfl, hne, h1, h2, rfl, rfl⟩) fun _ _ => ?_
  refine spec_bind (spec_orReturn _ (by simp)) fun keyjson hj => ?_
  exact spec_keystoreOutput L w ctx k keyjson ⟨password, h1, hj⟩

theorem spec_privKeyPath (w : World) (ctx : CreateCtx) (k : PrivateKey)
    (hx : ctx.exportFlag = true) :
    Spec (PrivAllows w ctx k) (fun _ => True)
      (fun path => ∃ n, path =
        if ctx.dir ≠ "" then Join w.goos [Join w.goos [ctx.dir, "PrivateKey"], "PrivateKey", w.now n]
        else Join w.goos [defaultDataDir w, "PrivateKey", w.now n])
      (privKeyPath w ctx) := by
  unfold privKeyPath
  refine spec_bind (spec_timeNowString w) fun ts hts => ?_
  by_cases hd : ctx.dir = ""
  · obtain ⟨n, rfl⟩ := hts
    simp only [hd, ne_eq, not_true_eq_false, if_false]
    exact spec_pure _ _ ⟨n, rfl⟩
  · simp only [ne_eq, hd, not_false_eq_true, if_true]
    unfold makePrivDirWithExistPath
    refine spec_bind (spec_bind (spec_mkdirAllOrFatal w _ _ ?_ ?_ ?_) fun _ _ =>
      spec_pure (fun d => d = Join w.goos [ctx.dir, "PrivateKey"]) _ rfl) fun d hd2 => ?_
    · exact ⟨hx, hd, rfl, rfl⟩
    · intro _ _; exact ⟨hx, hd⟩
    · trivial
    · subst hd2
      refine spec_bind (spec_timeNowString w) fun ts1 hts1 => ?_
      obtain ⟨n, rfl⟩ := hts1
      exact spec_pure _ _ ⟨n, rfl⟩

theorem spec_exportPriv (w : World) (ctx : CreateCtx) (k : PrivateKey)
    (hx : ctx.exportFlag = true) :
    Spec (PrivAllows w ctx k) (fun _ => True) (fun _ => True) (exportPriv w ctx k) := by
  unfold exportPriv
  refine spec_bind (spec_privKeyPath w ctx k hx) fun path hpath => ?_
  refine spec_bind (spec_emit _ ⟨hx, rfl, hpath⟩) fun _ _ => ?_
  refine spec_bind (R := fun _ => True) ?_ fun _ _ => ?_
  · cases w.saveECDSA path k with
    | some err => exact spec_bind (spec_println _ trivial) fun _ _ => spec_returnErr _ _ trivial
    | none => exact spec_pure _ _ trivial
  · exact spec_bind (spec_println _ trivial) fun _ _ => spec_println _ trivial

theorem spec_privBlock (L : Lib) (w : World) (ctx : CreateCtx) (k : PrivateKey) :
    Spec (PrivAllows w ctx k) (fun _ => True) (fun _ => True) (privBlock L w ctx k) := by
  unfold privBlock
  refine spec_bind (spec_println _ trivial) fun _ _ => ?_
  refine spec_bind (spec_println _ trivial) fun _ _ => ?_
  refine spec_bind (spec_println _ trivial) fun _ _ => ?_
  refine spec_bind (spec_println _ trivial) fun _ _ => ?_
  refine spec_bind (spec_println _ trivial) fun _ _ => ?_
  by_cases hx : ctx.exportFlag = true
  · rw [if_pos hx]; exact spec_exportPriv w ctx k hx
  · rw [if_neg hx]; exact spec_pure _ _ trivial

/-! ## The run of `createAccount` as a whole -/

theorem bind_apply {α β : Type} (m : Prog α) (f : α → Prog β) (s : St) :
    (m >>= f) s = match m s with
      | .ok a s1 => f a s1
      | .stop o s1 => .stop o s1 := rfl

theorem spec_privExport (w : World) (ctx : CreateCtx) (k : PrivateKey) :
    Spec (PrivAllows w ctx k) (fun _ => True) (fun _ => True)
      (if ctx.exportFlag = true then exportPriv w ctx k else pure ()) := by
  by_cases hx : ctx.exportFlag = true
  · rw [if_pos hx]; exact spec_exportPriv w ctx k hx
  · rw [if_neg hx]; exact spec_pure _ _ trivial

theorem privBlock_prints (L : Lib) (w : World) (ctx : CreateCtx) (k : PrivateKey) (s : St) :
    ∃ more, (privBlock L w ctx k s).state.events = s.events ++ (privPrints L k ++ more) := by
  obtain ⟨⟨more, hm, -⟩, -⟩ :=
    spec_privExport w ctx k { s with events := s.events ++ privPrints L k }
  refine ⟨more, ?_⟩
  simp only [privBlock, bind_apply, println, emit, privPrints, List.append_assoc,
    List.cons_append, List.nil_append] at hm ⊢
  exact hm

theorem createAccount_noFlag (L : Lib) (w : World) (ctx : CreateCtx)
    (hp : ctx.priv = false) (hk : ctx.keystore = false) :
    createAccount L w ctx = { events := [.println shouldSpecify], outcome := .ret none } := by
  simp [createAccount, runHandler, createAccountBody, hp, hk, println, emit, returnErr,
    bind, Prog.bind, St.init]

theorem createAccount_genError (L : Lib) (w : World) (ctx : CreateCtx) (err : String)
    (hsel : (ctx.priv || ctx.keystore) = true) (hg : w.generateKey = .error err) :
    createAccount L w ctx =
      { events := [.generateKey, .println ("generate account failed: " ++ err)],
        outcome := .ret (some err) } := by
  have h : (!ctx.priv && !ctx.keystore) = false := by
    cases hp : ctx.priv <;> cases hk : ctx.keystore <;> simp_all
  simp [createAccount, runHandler, createAccountBody, generateKeyOrReturn, h, hg, println, emit,
    returnErr, bind, Prog.bind, pure, Prog.pure, St.init]

/-- The state after a successful key generation. -/
theorem createAccount_genOk (L : Lib) (w : World) (ctx : CreateCtx) (k : PrivateKey)
    (hsel : (ctx.priv || ctx.keystore) = true) (hg : w.generateKey = .ok k) :
    createAccount L w ctx =
      runHandler (fun _ =>
        ((if ctx.keystore = true then keystoreBlock L w ctx k else pure ()) >>= fun _ =>
          (if ctx.priv = true then privBlock L w ctx k else pure ()) >>= fun _ =>
            (pure none : Prog (Option String))) { events := [.generateKey], clock := 0 }) := by
  have h : (!ctx.priv && !ctx.keystore) = false := by
    cases hp : ctx.priv <;> cases hk : ctx.keystore <;> simp_all
  simp [createAccount, runHandler, createAccountBody, generateKeyOrReturn, h, hg, println, emit,
    returnErr, bind, Prog.bind, pure, Prog.pure, St.init]

theorem createAccount_run (L : Lib) (w : World) (ctx : CreateCtx) (k : PrivateKey)
    (hsel : (ctx.priv || ctx.keystore) = true) (hg : w.generateKey = .ok k) :
    ∃ evs1 evs2, (createAccount L w ctx).events = .generateKey :: (evs1 ++ evs2) ∧
      (∀ e ∈ evs1, ctx.keystore = true ∧ KeystoreAllows L w ctx k e) ∧
      ((evs2 = [] ∧ (ctx.priv = true → (createAccount L w ctx).outcome ≠ .ret none)) ∨
        (ctx.priv = true ∧ (∃ more, evs2 = privPrints L k ++ more) ∧
          ∀ e ∈ evs2, PrivAllows w ctx k e)) := by
  rw [createAccount_genOk L w ctx k hsel hg]
  simp only [runHandler, bind_apply]
  have hks : Spec (fun e => ctx.keystore = true ∧ KeystoreAllows L w ctx k e)
      (fun o => o ≠ .ret none) (fun _ => True)
      (if ctx.keystore = true then keystoreBlock L w ctx k else pure ()) := by
    by_cases hk : ctx.keystore = true
    · rw [if_pos hk]
      exact spec_mono (spec_keystoreBlock L w ctx k) (fun _ h => ⟨hk, h⟩) (fun _ h => h)
        (fun _ h => h)
    · rw [if_neg hk]; exact spec_pure _ _ trivial
  obtain ⟨⟨evs1, he1, hP1⟩, hq1⟩ := hks { events := [.generateKey], clock := 0 }
  cases h1 : (if ctx.keystore = true then keystoreBlock L w ctx k else pure ())
      { events := [.generateKey], clock := 0 } with
  | stop o s1 =>
    rw [h1] at he1 hq1
    simp only [Res.state] at he1
    refine ⟨evs1, [], ?_, hP1, Or.inl ⟨rfl, fun _ => hq1⟩⟩
    simp [he1]
  | ok u s1 =>
    rw [h1] at he1
    simp only [Res.state] at he1
    by_cases hp : ctx.priv = true
    · rw [if_pos hp]
      obtain ⟨more, hmore⟩ := privBlock_prints L w ctx k s1
      obtain ⟨⟨evs2, he2, hP2⟩, -⟩ := spec_privBlock L w ctx k s1
      have hev : evs2 = privPrints L k ++ more := by
        rw [he2] at hmore
        exact List.append_cancel_left hmore
      refine ⟨evs1, evs2, ?_, hP1, Or.inr ⟨hp, ⟨more, hev⟩, hP2⟩⟩
      cases h2 : privBlock L w ctx k s1 with
      | ok u2 s2 =>
        dsimp only
        rw [h2] at he2 ⊢; simp [Res.state] at he2; simp [pure, Prog.pure, he2, he1]
      | stop o s2 =>
        dsimp only
        rw [h2] at he2 ⊢; simp [Res.state] at he2; simp [he2, he1]
    · have hk : ctx.keystore = true := by
        cases hpp : ctx.priv <;> cases hkk : ctx.keystore <;> simp_all
      rw [if_neg hp]
      refine ⟨evs1, [], ?_, hP1, Or.inl ⟨rfl, fun h => absurd h hp⟩⟩
      simp [pure, Prog.pure, he1]

theorem createAccount_event_cases (L : Lib) (w : World) (ctx : CreateCtx) :
    ∀ e ∈ (createAccount L w ctx).events,
      e = .generateKey ∨ e.isPrintln = true ∨
        ∃ k, w.generateKey = .ok k ∧ CreateAllows L w ctx k e := by
  intro e he
  by_cases hsel : (ctx.priv || ctx.keystore) = true
  · cases hg : w.generateKey with
    | error err =>
      rw [createAccount_genError L w ctx err hsel hg] at he
      simp at he
      rcases he with rfl | rfl
      · exact Or.inl rfl
      · exact Or.inr (Or.inl rfl)
    | ok k =>
      obtain ⟨evs1, evs2, hev, h1, h2⟩ := createAccount_run L w ctx k hsel hg
      rw [hev] at he
      rcases List.mem_cons.1 he with rfl | he
      · exact Or.inl rfl
      · refine Or.inr (Or.inr ⟨k, rfl, ?_⟩)
        rcases List.mem_append.1 he with h | h
        · exact Or.inl (h1 e h)
        · rcases h2 with ⟨rfl, -⟩ | ⟨hp, -, hP⟩
          · simp at h
          · exact Or.inr ⟨hp, hP e h⟩
  · have hp : ctx.priv = false := by cases h : ctx.priv <;> simp_all
    have hk : ctx.keystore = false := by cases h : ctx.keystore <;> simp_all
    rw [createAccount_noFlag L w ctx hp hk] at he
    simp at he
    subst he
    exact Or.inr (Or.inl rfl)

/-! ## Helper facts on the allowed events -/

theorem keystoreAllows_not_generateKey {L : Lib} {w : World} {ctx : CreateCtx} {k : PrivateKey}
    {e : Event} (h : KeystoreAllows L w ctx k e) : e.isGenerateKey = false := by
  cases e <;> simp_all [KeystoreAllows, Event.isGenerateKey]

theorem privAllows_not_generateKey {w : World} {ctx : CreateCtx} {k : PrivateKey}
    {e : Event} (h : PrivAllows w ctx k e) : e.isGenerateKey = false := by
  cases e <;> simp_all [PrivAllows, Event.isGenerateKey]

theorem createAllows_fsWrite {L : Lib} {w : World} {ctx : CreateCtx} {k : PrivateKey}
    {e : Event} (h : CreateAllows L w ctx k e) (he : e.isFsWrite = true) :
    ctx.exportFlag = true := by
  rcases h with ⟨-, h⟩ | ⟨-, h⟩ <;>
    cases e <;> simp_all [KeystoreAllows, PrivAllows, Event.isFsWrite]

/-! ## The run of `parseAccount` -/

theorem parseAccount_noFlag (L : Lib) (w : World) (ctx : ParseCtx)
    (hp : ctx.priv = "") (hk : ctx.keystore = "") :
    parseAccount L w ctx = { events := [.println shouldSpecify], outcome := .ret none } := by
  simp [parseAccount, runHandler, parseAccountBody, hp, hk, println, emit, returnErr,
    bind, Prog.bind, St.init]

theorem parseAccount_priv (L : Lib) (w : World) (ctx : ParseCtx) (hp : ctx.priv ≠ "") :
    parseAccount L w ctx =
      match w.loadECDSA ctx.priv with
      | .error err => { events := [.loadECDSA ctx.priv], outcome := .ret (some err) }
      | .ok pk =>
        { events :=
            [ .loadECDSA ctx.priv,
              .println "=====  your address ====",
              .println (hexEncode (L.pubkeyToAddress pk.publicKey)),
              .println "========================" ]
          outcome := .ret none } := by
  cases h : w.loadECDSA ctx.priv <;>
    simp [parseAccount, runHandler, parseAccountBody, parsePriv, orReturn, hp, h, println, emit,
      returnErr, bind, Prog.bind, pure, Prog.pure, St.init]

theorem parseAccount_keystore (L : Lib) (w : World) (ctx : ParseCtx) (b : Bytes)
    (pass : String) (key : Key) (hp : ctx.priv = "") (hk : ctx.keystore ≠ "")
    (hread : w.readFile ctx.keystore = .ok b) (htty : w.tty "Enter passphrase: " = .ok pass)
    (hdec : L.decryptKey b pass = .ok key) :
    parseAccount L w ctx =
      { events :=
          .readFile ctx.keystore :: (ttyEvents "Enter passphrase: " ++
            [ .decryptKey b pass,
              .println "=====  your private key ====",
              .println (hexEncode (L.fromECDSA key.privateKey)),
              .println "======   your address  =====",
              .println (hexEncode key.address),
              .println "============================" ])
        outcome := .ret none } := by
  simp [parseAccount, runHandler, parseAccountBody, parseKeystore, readPasswordFromNewTTY,
    orReturn, hp, hk, hread, htty, hdec, println, emit, returnErr, bind, Prog.bind, pure,
    Prog.pure, St.init, ttyEvents]

/-! ## Facts on the loop of `filepath.Clean` -/

theorem isSep_sepChar (win : Bool) : isSep win (sepChar win) = true := by
  cases win <;> simp [isSep, sepChar]

theorem splitSep_ne_nil (win : Bool) (p : List Char) : splitSep win p ≠ [] := by
  cases p with
  | nil => simp [splitSep]
  | cons c cs =>
    unfold splitSep
    split
    · simp
    · split <;> simp

theorem splitSep_append (win : Bool) (a b : List Char) (s : Char) (hs : isSep win s = true) :
    splitSep win (a ++ s :: b) = splitSep win a ++ splitSep win b := by
  induction a with
  | nil => simp [splitSep, hs]
  | cons c cs ih =>
    by_cases hc : isSep win c = true
    · simp [splitSep, hc, ih]
    · simp only [List.cons_append, splitSep, hc, if_false]
      show (match splitSep win (cs ++ s :: b) with
        | [] => [[c]]
        | x :: xs => (c :: x) :: xs) = _
      rw [ih]
      cases h : splitSep win cs with
      | nil => exact absurd h (splitSep_ne_nil win cs)
      | cons x xs => simp

theorem splitSep_noSep (win : Bool) (c : List Char) (h : NoSep win c) :
    splitSep win c = [c] := by
  induction c with
  | nil => rfl
  | cons x xs ih =>
    have hx : isSep win x = false := h x (by simp)
    have hxs : NoSep win xs := fun y hy => h y (List.mem_cons_of_mem _ hy)
    simp [splitSep, hx, ih hxs]

theorem splitSep_joinSep (win : Bool) (cs : List (List Char)) (hne : cs ≠ [])
    (h : ∀ c ∈ cs, NoSep win c) : splitSep win (joinSep win cs) = cs := by
  induction cs with
  | nil => exact absurd rfl hne
  | cons x rest ih =>
    cases rest with
    | nil => simpa [joinSep] using splitSep_noSep win x (h x (by simp))
    | cons y rest2 =>
      simp only [joinSep]
      rw [splitSep_append win _ _ _ (isSep_sepChar win), splitSep_noSep win x (h x (by simp)),
        ih (by simp) (fun c hc => h c (List.mem_cons_of_mem _ hc))]
      rfl

theorem joinSep_append_singleton (win : Bool) (cs : List (List Char)) (hne : cs ≠ [])
    (c : List Char) : joinSep win (cs ++ [c]) = joinSep win cs ++ sepChar win :: c := by
  induction cs with
  | nil => exact absurd rfl hne
  | cons x rest ih =>
    cases rest with
    | nil => simp [joinSep]
    | cons y rest2 =>
      have := ih (by simp)
      simp only [List.cons_append] at this
      show x ++ sepChar win :: joinSep win (y :: (rest2 ++ [c])) = _
      rw [this]
      simp [joinSep]

theorem cleanStep_plain (win : Bool) (r : Bool) (st : List (List Char)) (c : List Char)
    (h : PlainComp win c) : cleanStep r st c = c :: st := by
  obtain ⟨h1, h2, h3, -⟩ := h
  simp [cleanStep, h1, h2, h3]

theorem foldl_cleanStep_plain (win : Bool) (r : Bool) (cs : List (List Char))
    (h : ∀ c ∈ cs, PlainComp win c) (st : List (List Char)) :
    cs.foldl (cleanStep r) st = cs.reverse ++ st := by
  induction cs generalizing st with
  | nil => rfl
  | cons c rest ih =>
    rw [List.foldl_cons, cleanStep_plain win r st c (h c (by simp)),
      ih (fun x hx => h x (List.mem_cons_of_mem _ hx))]
    simp

theorem normalStack_of_dotdots (win : Bool) (st : List (List Char))
    (h : ∀ x ∈ st, x = ['.', '.']) : NormalStack win false st := by
  induction st with
  | nil => trivial
  | cons c rest ih =>
    exact Or.inr ⟨h c (by simp), rfl, fun x hx => h x (List.mem_cons_of_mem _ hx)⟩

theorem normalStack_tail {win r : Bool} {c : List Char} {st : List (List Char)}
    (h : NormalStack win r (c :: st)) : NormalStack win r st := by
  rcases h with ⟨-, h⟩ | ⟨-, hr, h⟩
  · exact h
  · subst hr; exact normalStack_of_dotdots win st h

theorem noSep_dotdot (win : Bool) : NoSep win ['.', '.'] := by
  intro x hx
  simp only [List.mem_cons, List.mem_singleton, List.not_mem_nil, or_false, or_self] at hx
  subst hx
  cases win <;> simp [isSep]

theorem normalStack_noSep {win r : Bool} {st : List (List Char)} (h : NormalStack win r st) :
    ∀ c ∈ st, c ≠ [] ∧ NoSep win c := by
  induction st with
  | nil => simp
  | cons c rest ih =>
    intro x hx
    rcases List.mem_cons.1 hx with rfl | hx
    · rcases h with ⟨hp, -⟩ | ⟨hc, -, -⟩
      · exact ⟨hp.1, hp.2.2.2⟩
      · subst hc; exact ⟨by simp, noSep_dotdot win⟩
    · exact ih (normalStack_tail h) x hx

theorem cleanStep_normal (win : Bool) (r : Bool) (st : List (List Char)) (c : List Char)
    (hst : NormalStack win r st) (hc : NoSep win c) : NormalStack win r (cleanStep r st c) := by
  unfold cleanStep
  split
  · exact hst
  · split
    · exact hst
    · split
      · rename_i hdd
        cases st with
        | nil =>
          cases r with
          | true => trivial
          | false => exact Or.inr ⟨hdd, rfl, by simp⟩
        | cons top rest =>
          simp only
          split
          · rename_i htop
            rcases hst with ⟨hp, -⟩ | ⟨-, hr, hall⟩
            · exact absurd htop hp.2.2.1
            · refine Or.inr ⟨hdd, hr, ?_⟩
              intro x hx
              rcases List.mem_cons.1 hx with rfl | hx
              · exact htop
              · exact hall x hx
          · exact normalStack_tail hst
      · rename_i h1 h2 h3
        exact Or.inl ⟨⟨h1, h2, h3, hc⟩, hst⟩

theorem splitSep_noSep_mem (win : Bool) (p : List Char) : ∀ c ∈ splitSep win p, NoSep win c := by
  induction p with
  | nil =>
    intro c hc
    simp only [splitSep, List.mem_singleton] at hc
    subst hc
    intro x hx
    simp at hx
  | cons x xs ih =>
    unfold splitSep
    split
    · intro c hc
      rcases List.mem_cons.1 hc with rfl | hc
      · intro y hy; simp at hy
      · exact ih c hc
    · rename_i hx
      have hx2 : isSep win x = false := by simpa using hx
      split
      · intro c hc
        simp only [List.mem_singleton] at hc
        subst hc
        intro y hy
        simp only [List.mem_singleton] at hy
        subst hy
        exact hx2
      · rename_i y ys hsplit
        intro c hc
        rcases List.mem_cons.1 hc with rfl | hc
        · have := ih y (by rw [hsplit]; simp)
          intro z hz
          rcases List.mem_cons.1 hz with rfl | hz
          · exact hx2
          · exact this z hz
        · exact ih c (by rw [hsplit]; exact List.mem_cons_of_mem _ hc)

theorem foldl_cleanStep_normal (win : Bool) (r : Bool) (cs : List (List Char))
    (h : ∀ c ∈ cs, NoSep win c) (st : List (List Char)) (hst : NormalStack win r st) :
    NormalStack win r (cs.foldl (cleanStep r) st) := by
  induction cs generalizing st with
  | nil => exact hst
  | cons c rest ih =>
    rw [List.foldl_cons]
    exact ih (fun x hx => h x (List.mem_cons_of_mem _ hx)) _
      (cleanStep_normal win r st c hst (h c (by simp)))

/-- Cleaning the components of a normal stack again gives the stack back. -/
theorem foldl_cleanStep_reverse (win : Bool) (r : Bool) (st : List (List Char))
    (h : NormalStack win r st) : st.reverse.foldl (cleanStep r) [] = st := by
  induction st with
  | nil => rfl
  | cons c rest ih =>
    rw [List.reverse_cons, List.foldl_append, ih (normalStack_tail h)]
    rcases h with ⟨hp, -⟩ | ⟨hc, hr, hall⟩
    · simp [cleanStep_plain win r rest c hp]
    · subst hc; subst hr
      cases rest with
      | nil => simp [cleanStep]
      | cons top rest2 =>
        have := hall top (by simp)
        subst this
        simp [cleanStep]

theorem joinSep_cons_eq (win : Bool) (c : List Char) (rest : List (List Char)) :
    ∃ t, joinSep win (c :: rest) = c ++ t := by
  cases rest with
  | nil => exact ⟨[], by simp [joinSep]⟩
  | cons y ys => exact ⟨sepChar win :: joinSep win (y :: ys), rfl⟩

theorem render_ne_nil (win : Bool) (r : Bool) (st : List (List Char)) : render win r st ≠ [] := by
  unfold render
  simp only
  by_cases h : (if r = true then sepChar win :: joinSep win st.reverse
      else joinSep win st.reverse) = []
  · rw [if_pos h]; simp
  · rw [if_neg h]; exact h

theorem cleanLoop_ne_nil (win : Bool) (p : List Char) : cleanLoop win p ≠ [] :=
  render_ne_nil _ _ _

theorem cleanChars_ne_nil (p : List Char) : cleanChars p ≠ [] := by
  unfold cleanChars
  split
  · simp
  · exact cleanLoop_ne_nil _ _

/-- The rendering of a non-empty normal stack starts with the first component
(after the separator of a rooted path). -/
theorem render_normal {win r : Bool} {st : List (List Char)} (h : NormalStack win r st)
    (hne : st ≠ []) :
    render win r st = (if r then [sepChar win] else []) ++ joinSep win st.reverse ∧
      ∃ c t, c ≠ [] ∧ NoSep win c ∧ joinSep win st.reverse = c ++ t := by
  have hrev : st.reverse ≠ [] := by simpa using hne
  cases hs : st.reverse with
  | nil => exact absurd hs hrev
  | cons c rest =>
    obtain ⟨t, ht⟩ := joinSep_cons_eq win c rest
    have hc := normalStack_noSep h c (by
      have : c ∈ st.reverse := by rw [hs]; simp
      simpa using this)
    have hbody : joinSep win (c :: rest) ≠ [] := by
      rw [ht]
      simp [hc.1]
    refine ⟨?_, c, t, hc.1, hc.2, ht⟩
    unfold render
    simp only [hs]
    cases r <;> simp [hbody]

theorem render_cons {win r : Bool} {st : List (List Char)} (h : NormalStack win r st)
    (hne : st ≠ []) (c : List Char) :
    render win r (c :: st) = render win r st ++ sepChar win :: c := by
  have hrev : st.reverse ≠ [] := by simpa using hne
  rw [(render_normal h hne).1]
  unfold render
  simp only [List.reverse_cons]
  rw [joinSep_append_singleton _ _ hrev]
  cases r <;> simp

theorem isRooted_render {win r : Bool} {st : List (List Char)} (h : NormalStack win r st)
    (hne : st ≠ []) (x : List Char) : isRooted win (render win r st ++ x) = r := by
  obtain ⟨hr, c, t, hc, hsep, hj⟩ := render_normal h hne
  rw [hr, hj]
  cases r with
  | true => simp [isRooted, isSep_sepChar]
  | false =>
    cases c with
    | nil => exact absurd rfl hc
    | cons a as =>
      have : isSep win a = false := hsep a (by simp)
      simp [isRooted, this]

theorem splitSep_render {win r : Bool} {st : List (List Char)} (h : NormalStack win r st)
    (hne : st ≠ []) (x : List Char) (s : Char) (hs : isSep win s = true) :
    splitSep win (render win r st ++ s :: x)
      = (if r then [[]] else []) ++ (st.reverse ++ splitSep win x) := by
  have hrev : st.reverse ≠ [] := by simpa using hne
  have hsl : ∀ c ∈ st.reverse, NoSep win c := fun c hc =>
    (normalStack_noSep h c (by simpa using hc)).2
  rw [(render_normal h hne).1]
  cases r with
  | true =>
    show splitSep win (sepChar win :: (joinSep win st.reverse ++ s :: x))
      = [] :: (st.reverse ++ splitSep win x)
    rw [splitSep, if_pos (isSep_sepChar win), splitSep_append win _ _ _ hs,
      splitSep_joinSep _ _ hrev hsl]
  | false =>
    simp only [List.nil_append, Bool.false_eq_true, if_false]
    rw [splitSep_append win _ _ _ hs, splitSep_joinSep _ _ hrev hsl]

/-- Cleaning a cleaned path followed by more components continues the loop of
`filepath.Clean` from the stack of the cleaned path. -/
theorem cleanLoop_render_append {win r : Bool} {st : List (List Char)}
    (h : NormalStack win r st) (hne : st ≠ []) (x : List Char) (s : Char)
    (hs : isSep win s = true) :
    cleanLoop win (render win r st ++ s :: x)
      = render win r ((splitSep win x).foldl (cleanStep r) st) := by
  unfold cleanLoop
  rw [isRooted_render h hne, splitSep_render h hne x s hs, List.foldl_append, List.foldl_append]
  have h0 : List.foldl (cleanStep r) [] (if r = true then [[]] else []) = [] := by
    cases r <;> simp [cleanStep]
  rw [h0, foldl_cleanStep_reverse win r st h]

theorem cleanLoop_append (win : Bool) (a : List Char) (ha : a ≠ []) (x : List Char) (s : Char)
    (hs : isSep win s = true) :
    cleanLoop win (a ++ s :: x) =
      render win (isRooted win a)
        ((splitSep win x).foldl (cleanStep (isRooted win a))
          ((splitSep win a).foldl (cleanStep (isRooted win a)) [])) := by
  have hr : isRooted win (a ++ s :: x) = isRooted win a := by
    cases a with
    | nil => exact absurd rfl ha
    | cons c cs => rfl
  unfold cleanLoop
  rw [hr, splitSep_append win _ _ _ hs, List.foldl_append]

theorem joinElems_eq_joinSep (win : Bool) (cs : List String) :
    joinElems win cs = joinSep win (cs.map String.data) := by
  induction cs with
  | nil => rfl
  | cons x rest ih =>
    cases rest with
    | nil => rfl
    | cons y rest2 =>
      simp only [joinElems, List.map_cons, joinSep]
      rw [ih]
      rfl

theorem plainComp_of_isFileName {goos : String} {s : String} (h : isFileName goos s = true) :
    PlainComp (goos = "windows") s.data := by
  simp only [isFileName, Bool.and_eq_true, decide_eq_true_eq, List.all_eq_true,
    Bool.not_eq_true'] at h
  exact ⟨h.1.1.1, h.1.1.2, h.1.2, h.2⟩

theorem data_ne_nil {s : String} (h : s ≠ "") : s.data ≠ [] := by
  intro e
  apply h
  exact String.ext e

theorem upToLastSep_append (win : Bool) (p c : List Char) (s : Char) (hs : isSep win s = true)
    (hc : NoSep win c) : upToLastSep win (p ++ s :: c) = p ++ [s] := by
  unfold upToLastSep
  have : (p ++ s :: c).reverse = c.reverse ++ s :: p.reverse := by simp
  rw [this, List.dropWhile_append_of_pos]
  · simp [List.dropWhile, hs]
  · intro x hx
    have : isSep win x = false := hc x (by simpa using hx)
    simp [this]

/-! ## Facts on `filepath.Join` and `filepath.Dir`, separator `/` -/

theorem Join_of_not_windows {goos : String} (h : goos ≠ "windows") (xs : List String) :
    Join goos xs = unixJoin xs := by
  simp [Join, h]

theorem Join_windows (xs : List String) : Join "windows" xs = winJoin xs := by
  simp [Join]

theorem Dir_of_not_windows {goos : String} (h : goos ≠ "windows") (p : String) :
    Dir goos p = ⟨cleanChars (upToLastSep false p.data)⟩ := by
  simp [Dir, h]

theorem Dir_windows (p : String) : Dir "windows" p = ⟨winDir p.data⟩ := by
  simp [Dir]

theorem unixJoin_cons_of_ne (a : String) (rest : List String) (ha : a ≠ "") :
    unixJoin (a :: rest) = ⟨cleanChars (joinElems false (a :: rest))⟩ := by
  simp [unixJoin, ha]

theorem winJoin_cons_of_ne (a : String) (rest : List String) (ha : a ≠ "") :
    winJoin (a :: rest) = ⟨winJoinNonEmpty a rest⟩ := by
  simp [winJoin, ha]

theorem unixJoin_ne_empty (xs : List String) (h : ∃ x ∈ xs, x ≠ "") : unixJoin xs ≠ "" := by
  induction xs with
  | nil => simp at h
  | cons a rest ih =>
    by_cases ha : a = ""
    · have : unixJoin (a :: rest) = unixJoin rest := by simp [unixJoin, ha]
      rw [this]
      apply ih
      obtain ⟨x, hx, hne⟩ := h
      rcases List.mem_cons.1 hx with rfl | hx
      · exact absurd ha hne
      · exact ⟨x, hx, hne⟩
    · rw [unixJoin_cons_of_ne a rest ha]
      intro e
      exact cleanChars_ne_nil _ (congrArg String.data e)

theorem fromSlash_ne_nil {p : List Char} (h : p ≠ []) : fromSlash p ≠ [] := by
  cases p with
  | nil => exact absurd rfl h
  | cons c cs => simp [fromSlash]

theorem winCleanChars_ne_nil (p : List Char) : winCleanChars p ≠ [] := by
  unfold winCleanChars
  split
  · split
    · rename_i h
      apply fromSlash_ne_nil
      intro e
      rw [e] at h
      simp [volumeNameLen] at h
    · simp
  · apply fromSlash_ne_nil
    intro e
    exact cleanLoop_ne_nil _ _ (List.append_eq_nil.1 e).2

theorem winJoinNonEmpty_ne_nil (e : String) (rest : List String) :
    winJoinNonEmpty e rest ≠ [] := by
  unfold winJoinNonEmpty
  split
  · exact winCleanChars_ne_nil _
  · split
    · exact winCleanChars_ne_nil _
    · split
      · exact winCleanChars_ne_nil _
      · split
        · intro h
          exact winCleanChars_ne_nil _ (List.append_eq_nil.1 h).1
        · intro h
          exact winCleanChars_ne_nil _ (List.append_eq_nil.1 h).1

theorem winJoin_ne_empty (xs : List String) (h : ∃ x ∈ xs, x ≠ "") : winJoin xs ≠ "" := by
  induction xs with
  | nil => simp at h
  | cons a rest ih =>
    by_cases ha : a = ""
    · have : winJoin (a :: rest) = winJoin rest := by simp [winJoin, ha]
      rw [this]
      apply ih
      obtain ⟨x, hx, hne⟩ := h
      rcases List.mem_cons.1 hx with rfl | hx
      · exact absurd ha hne
      · exact ⟨x, hx, hne⟩
    · rw [winJoin_cons_of_ne a rest ha]
      intro e
      exact winJoinNonEmpty_ne_nil _ _ (congrArg String.data e)

/-- The contract of `filepath.Join` on every build: the result is empty only
when every element is. -/
theorem Join_ne_empty (goos : String) (xs : List String) (h : ∃ x ∈ xs, x ≠ "") :
    Join goos xs ≠ "" := by
  unfold Join
  split
  · exact winJoin_ne_empty xs h
  · exact unixJoin_ne_empty xs h

theorem cleanForm_ne_empty {r : Bool} {st : List (List Char)} {D : String}
    (h : CleanForm r st D) : D ≠ "" := by
  intro e
  have := h.2.2
  rw [e] at this
  exact render_ne_nil false r st this.symm

/-- Joining a non-empty element with file names gives a cleaned path. -/
theorem cleanForm_unixJoin_names (a : String) (ha : a ≠ "") (cs : List String) (hne : cs ≠ [])
    (hcs : ∀ c ∈ cs, PlainComp false c.data) :
    ∃ r st, CleanForm r st (unixJoin (a :: cs)) := by
  have hpl : ∀ c ∈ cs.map String.data, PlainComp false c := by
    intro c hc
    obtain ⟨s, hs, rfl⟩ := List.mem_map.1 hc
    exact hcs s hs
  have hmne : cs.map String.data ≠ [] := by simpa using hne
  refine ⟨isRooted false a.data,
    (cs.map String.data).reverse ++
      (splitSep false a.data).foldl (cleanStep (isRooted false a.data)) [],
    ?_, ?_, ?_⟩
  · rw [← foldl_cleanStep_plain false _ _ hpl]
    exact foldl_cleanStep_normal _ _ _ (fun c hc => (hpl c hc).2.2.2) _
      (foldl_cleanStep_normal _ _ _ (splitSep_noSep_mem _ _) _ trivial)
  · simp [hne]
  · rw [unixJoin_cons_of_ne a cs ha]
    cases cs with
    | nil => exact absurd rfl hne
    | cons c rest =>
      show cleanChars (a.data ++ '/' :: joinElems false (c :: rest)) = _
      rw [cleanChars, if_neg (by simp), cleanLoop_append false _ (data_ne_nil ha) _ '/' rfl,
        joinElems_eq_joinSep, splitSep_joinSep _ _ hmne (fun x hx => (hpl x hx).2.2.2),
        foldl_cleanStep_plain false _ _ hpl]

/-- Joining a cleaned path with file names appends them. -/
theorem cleanForm_unixJoin_append {r : Bool} {st : List (List Char)} {D : String}
    (h : CleanForm r st D) (cs : List String) (hne : cs ≠ [])
    (hcs : ∀ c ∈ cs, PlainComp false c.data) :
    CleanForm r ((cs.map String.data).reverse ++ st) (unixJoin (D :: cs)) := by
  have hpl : ∀ c ∈ cs.map String.data, PlainComp false c := by
    intro c hc
    obtain ⟨s, hs, rfl⟩ := List.mem_map.1 hc
    exact hcs s hs
  have hmne : cs.map String.data ≠ [] := by simpa using hne
  refine ⟨?_, by simp [hne], ?_⟩
  · rw [← foldl_cleanStep_plain false _ _ hpl]
    exact foldl_cleanStep_normal _ _ _ (fun c hc => (hpl c hc).2.2.2) _ h.1
  · rw [unixJoin_cons_of_ne D cs (cleanForm_ne_empty h)]
    cases cs with
    | nil => exact absurd rfl hne
    | cons c rest =>
      show cleanChars (D.data ++ '/' :: joinElems false (c :: rest)) = _
      rw [cleanChars, if_neg (by simp), h.2.2, cleanLoop_render_append h.1 h.2.1 _ '/' rfl,
        joinElems_eq_joinSep, splitSep_joinSep _ _ hmne (fun x hx => (hpl x hx).2.2.2),
        foldl_cleanStep_plain false _ _ hpl]

/-- The directory of a cleaned path with at least two components is the
cleaned path without its last component. -/
theorem unixDir_cleanForm {r : Bool} {st : List (List Char)} {c : List Char} {P Q : String}
    (hP : CleanForm r (c :: st) P) (hQ : CleanForm r st Q) :
    (⟨cleanChars (upToLastSep false P.data)⟩ : String) = Q := by
  apply String.ext
  have hc := (normalStack_noSep hP.1 c (by simp)).2
  show cleanChars (upToLastSep false P.data) = Q.data
  rw [hP.2.2, render_cons hQ.1 hQ.2.1,
    upToLastSep_append false _ _ (sepChar false) (isSep_sepChar false) hc, hQ.2.2,
    cleanChars, if_neg (by simp),
    cleanLoop_render_append hQ.1 hQ.2.1 [] (sepChar false) (isSep_sepChar false)]
  simp [splitSep, cleanStep]

/-- Appending a component to a cleaned path changes it. -/
theorem cleanForm_cons_ne {r : Bool} {st : List (List Char)} {c : List Char} {P Q : String}
    (hP : CleanForm r (c :: st) P) (hQ : CleanForm r st Q) : P ≠ Q := by
  intro e
  have h1 := hP.2.2
  rw [e, hQ.2.2, render_cons hQ.1 hQ.2.1] at h1
  have := congrArg List.length h1
  simp at this

/-- On a build with the separator `/`, the directory of a file placed in
`Join [D, b]` is `Join [D, b]`. -/
theorem Dir_Join_file {goos : String} (hg : goos ≠ "windows") (D b ts : String) (r : Bool)
    (st : List (List Char)) (hD : CleanForm r st D) (hb : PlainComp false b.data)
    (hts : PlainComp false ts.data) :
    Dir goos (Join goos [D, b, ts]) = Join goos [D, b] := by
  have h2 := cleanForm_unixJoin_append hD [b, ts] (by simp) (by simp [hb, hts])
  have h1 := cleanForm_unixJoin_append hD [b] (by simp) (by simp [hb])
  rw [Join_of_not_windows hg, Join_of_not_windows hg, Dir_of_not_windows hg]
  exact unixDir_cleanForm (by simpa using h2) (by simpa using h1)

theorem plainComp_false_of_isFileName {goos : String} (hg : goos ≠ "windows") {s : String}
    (h : isFileName goos s = true) : PlainComp false s.data := by
  have := plainComp_of_isFileName h
  simpa [hg] using this

theorem plainComp_true_of_isFileName {s : String} (h : isFileName "windows" s = true) :
    PlainComp true s.data := by
  have := plainComp_of_isFileName h
  simpa using this

/-! ## Facts on `filepath.Join` and `filepath.Dir`, absolute windows paths -/

theorem volumeNameLen_drive (l : Char) (hl : isLetter l = true) (rest : List Char) :
    volumeNameLen (l :: ':' :: rest) = 2 := by
  simp [volumeNameLen, hl]

theorem isSep_ne_colon {s : Char} (hs : isSep true s = true) : s ≠ ':' := by
  intro e
  rw [e] at hs
  exact absurd hs (by decide)

theorem isSep_not_letter {s : Char} (hs : isSep true s = true) : isLetter s = false := by
  simp only [isSep, Bool.true_and, Bool.or_eq_true, decide_eq_true_eq] at hs
  rcases hs with rfl | rfl <;> decide

/-- The second branch of `volumeNameLen`, for a path whose second character is
not a colon. -/
theorem volumeNameLen_of_ne_colon (s1 s2 : Char) (rest : List Char) (h2 : s2 ≠ ':') :
    volumeNameLen (s1 :: s2 :: rest) =
      if isSep true s1 && isSep true s2 then
        match rest.takeWhile (fun c => !isSep true c) with
        | [] => 0
        | h0 :: host =>
          if h0 = '.' then 0
          else
            match rest.dropWhile (fun c => !isSep true c) with
            | _ :: c :: more =>
              if isSep true c || c = '.' then 0
              else 2 + (h0 :: host).length + 1
                + ((c :: more).takeWhile (fun c => !isSep true c)).length
            | _ => 0
      else 0 := by
  conv => lhs; unfold volumeNameLen
  split
  · rename_i h
    injection h with h1 h3
    injection h3 with h4 h5
    exact absurd h4 h2
  · rename_i h
    injection h with h1 h3
    injection h3 with h4 h5
    subst h1; subst h4; subst h5
    rfl
  · rename_i h1 h2
    exact absurd rfl (h2 s1 s2 rest)

/-- A path that starts with one separator followed by another character has
no volume name. -/
theorem volumeNameLen_rooted (s a : Char) (rest : List Char) (hs : isSep true s = true)
    (ha : isSep true a = false) : volumeNameLen (s :: a :: rest) = 0 := by
  by_cases hc : a = ':'
  · subst hc
    simp [volumeNameLen, isSep_not_letter hs]
  · rw [volumeNameLen_of_ne_colon s a rest hc]
    simp [ha]

theorem notSep_of_noSep {c : List Char} (h : NoSep true c) :
    ∀ a ∈ c, (fun x => !isSep true x) a = true := by
  intro a ha
  simp [h a ha]

/-- The volume name of a path that starts with `\\host\share`. -/
theorem volumeNameLen_unc (s1 s2 s3 h0 c : Char) (host sh tail : List Char)
    (h1 : isSep true s1 = true) (h2 : isSep true s2 = true) (h3 : isSep true s3 = true)
    (hh0 : isSep true h0 = false) (hh0d : h0 ≠ '.') (hhost : NoSep true host)
    (hc : isSep true c = false) (hcd : c ≠ '.') (hsh : NoSep true sh)
    (htail : tail = [] ∨ ∃ s t, tail = s :: t ∧ isSep true s = true) :
    volumeNameLen (s1 :: s2 :: ((h0 :: host) ++ s3 :: ((c :: sh) ++ tail)))
      = 2 + (h0 :: host).length + 1 + (c :: sh).length := by
  have hH : NoSep true (h0 :: host) := by
    intro x hx
    rcases List.mem_cons.1 hx with rfl | hx
    · exact hh0
    · exact hhost x hx
  have hS : NoSep true (c :: sh) := by
    intro x hx
    rcases List.mem_cons.1 hx with rfl | hx
    · exact hc
    · exact hsh x hx
  have htk : ((h0 :: host) ++ s3 :: ((c :: sh) ++ tail)).takeWhile (fun x => !isSep true x)
      = h0 :: host := by
    rw [List.takeWhile_append_of_pos (notSep_of_noSep hH)]
    simp [h3]
  have hdr : ((h0 :: host) ++ s3 :: ((c :: sh) ++ tail)).dropWhile (fun x => !isSep true x)
      = s3 :: c :: (sh ++ tail) := by
    rw [List.dropWhile_append_of_pos (notSep_of_noSep hH)]
    simp [h3]
  have htk2 : (c :: (sh ++ tail)).takeWhile (fun x => !isSep true x) = c :: sh := by
    have : c :: (sh ++ tail) = (c :: sh) ++ tail := rfl
    rw [this, List.takeWhile_append_of_pos (notSep_of_noSep hS)]
    rcases htail with rfl | ⟨s, t, rfl, hs⟩
    · simp
    · simp [hs]
  rw [volumeNameLen_of_ne_colon s1 s2 _ (isSep_ne_colon h2), htk, hdr]
  dsimp only
  rw [if_pos (by simp [h1, h2]), if_neg hh0d, if_neg (by simp [hc, hcd]), htk2]

/-- A volume name longer than a drive is of the form `\\host\share`. -/
theorem volumeNameLen_unc_shape (p : List Char) (h : 2 < volumeNameLen p) :
    ∃ s1 s2 s3 h0 c host sh tail,
      p = s1 :: s2 :: ((h0 :: host) ++ s3 :: ((c :: sh) ++ tail)) ∧
      isSep true s1 = true ∧ isSep true s2 = true ∧ isSep true s3 = true ∧
      isSep true h0 = false ∧ h0 ≠ '.' ∧ NoSep true host ∧
      isSep true c = false ∧ c ≠ '.' ∧ NoSep true sh ∧
      (tail = [] ∨ ∃ s t, tail = s :: t ∧ isSep true s = true) := by
  cases p with
  | nil => simp [volumeNameLen] at h
  | cons a t1 =>
    cases t1 with
    | nil => simp [volumeNameLen] at h
    | cons b rest =>
      by_cases hb : b = ':'
      · subst hb
        simp only [volumeNameLen] at h
        split at h <;> simp at h
      · rw [volumeNameLen_of_ne_colon a b rest hb] at h
        by_cases hab : (isSep true a && isSep true b) = true
        · rw [if_pos hab] at h
          simp only [Bool.and_eq_true] at hab
          cases hT : rest.takeWhile (fun c => !isSep true c) with
          | nil => rw [hT] at h; simp at h
          | cons h0 host =>
            rw [hT] at h
            simp only at h
            by_cases hh0d : h0 = '.'
            · rw [if_pos hh0d] at h; simp at h
            · rw [if_neg hh0d] at h
              cases hD : rest.dropWhile (fun c => !isSep true c) with
              | nil => rw [hD] at h; simp at h
              | cons s3 d1 =>
                cases d1 with
                | nil => rw [hD] at h; simp at h
                | cons c more =>
                  rw [hD] at h
                  simp only at h
                  by_cases hcc : (isSep true c || c = '.') = true
                  · rw [if_pos hcc] at h; simp at h
                  · have hc1 : isSep true c = false := by
                      cases hx : isSep true c <;> simp_all
                    have hc2 : c ≠ '.' := by
                      intro e
                      apply hcc
                      simp [e]
                    have hrest : rest = (h0 :: host) ++ s3 :: c :: more := by
                      rw [← hT, ← hD]
                      exact (List.takeWhile_append_dropWhile _ rest).symm
                    have hs3 : isSep true s3 = true := by
                      have := List.head?_dropWhile_not (fun c => !isSep true c) rest
                      rw [hD] at this
                      simpa using this
                    have hTmem : ∀ x ∈ h0 :: host, isSep true x = false := by
                      intro x hx
                      rw [← hT] at hx
                      have := List.mem_takeWhile_imp hx
                      simpa using this
                    have hmore : c :: more = (c :: more.takeWhile (fun c => !isSep true c))
                        ++ more.dropWhile (fun c => !isSep true c) := by
                      simp
                    refine ⟨a, b, s3, h0, c, host, more.takeWhile (fun c => !isSep true c),
                      more.dropWhile (fun c => !isSep true c), ?_, hab.1, hab.2, hs3,
                      hTmem h0 (by simp), hh0d, fun x hx => hTmem x (List.mem_cons_of_mem _ hx),
                      hc1, hc2, ?_, ?_⟩
                    · rw [hrest, ← hmore]
                    · intro x hx
                      have := List.mem_takeWhile_imp hx
                      simpa using this
                    · have := List.head?_dropWhile_not (fun c => !isSep true c) more
                      cases hdm : more.dropWhile (fun c => !isSep true c) with
                      | nil => exact Or.inl rfl
                      | cons s t =>
                        rw [hdm] at this
                        exact Or.inr ⟨s, t, rfl, by simpa using this⟩
        · rw [if_neg hab] at h; simp at h

theorem isSep_fromSlash_char {s : Char} (hs : isSep true s = true) :
    isSep true (if s = '/' then '\\' else s) = true := by
  by_cases h : s = '/'
  · simp [h, isSep]
  · simp [h, hs]

theorem fromSlash_eq_self (p : List Char) (h : ∀ x ∈ p, x ≠ '/') : fromSlash p = p := by
  induction p with
  | nil => rfl
  | cons c cs ih =>
    have hc : c ≠ '/' := h c (by simp)
    simp only [fromSlash, List.map_cons, hc, if_false]
    have := ih (fun x hx => h x (List.mem_cons_of_mem _ hx))
    simp only [fromSlash] at this
    rw [this]

theorem fromSlash_noSep (c : List Char) (h : NoSep true c) : fromSlash c = c := by
  apply fromSlash_eq_self
  intro x hx e
  have := h x hx
  rw [e] at this
  simp [isSep] at this

theorem fromSlash_append (a b : List Char) : fromSlash (a ++ b) = fromSlash a ++ fromSlash b := by
  simp [fromSlash]

theorem fromSlash_no_slash (p : List Char) : ∀ x ∈ fromSlash p, x ≠ '/' := by
  intro x hx
  simp only [fromSlash, List.mem_map] at hx
  obtain ⟨y, -, rfl⟩ := hx
  by_cases h : y = '/'
  · simp [h]
  · simp [h]

theorem volumeNameLen_pos_cases (p : List Char) (h : 0 < volumeNameLen p) :
    (∃ l rest, isLetter l = true ∧ p = l :: ':' :: rest) ∨ 2 < volumeNameLen p := by
  cases p with
  | nil => simp [volumeNameLen] at h
  | cons a t1 =>
    cases t1 with
    | nil => simp [volumeNameLen] at h
    | cons b rest =>
      by_cases hb : b = ':'
      · subst hb
        left
        simp only [volumeNameLen] at h
        split at h
        · rename_i hl
          exact ⟨a, rest, hl, rfl⟩
        · simp at h
      · right
        have hcases : volumeNameLen (a :: b :: rest) = 0 ∨ 5 ≤ volumeNameLen (a :: b :: rest) := by
          rw [volumeNameLen_of_ne_colon a b rest hb]
          repeat' split
          all_goals first
            | exact Or.inl rfl
            | (right
               rename_i c0 more0 hD0 hcc
               have hc1 : isSep true c0 = false := by
                 cases hx : isSep true c0 <;> simp_all
               simp only [List.takeWhile_cons, hc1, Bool.not_false, if_true, List.length_cons]
               simp_arith)
        omega

/-- The shape of an absolute windows path: a volume name that is stable, also
when written with `\`, followed by a separator. -/
theorem winIsAbs_shape (h : String) (habs : winIsAbs h = true) :
    ∃ vol s hr, h.data = vol ++ s :: hr ∧ isSep true s = true ∧ SepStable vol ∧
      SepStable (fromSlash vol) := by
  simp only [winIsAbs, Bool.and_eq_true, decide_eq_true_eq] at habs
  obtain ⟨hpos, hroot⟩ := habs
  rcases volumeNameLen_pos_cases h.data hpos with ⟨l, rest, hl, hp⟩ | hunc
  · rw [hp, volumeNameLen_drive l hl] at hroot
    simp only [List.drop_succ_cons, List.drop_zero] at hroot
    cases rest with
    | nil => simp [isRooted] at hroot
    | cons s hr =>
      have hst : SepStable [l, ':'] :=
        ⟨by simp, fun s2 r2 _ => volumeNameLen_drive l hl _⟩
      refine ⟨[l, ':'], s, hr, by rw [hp]; rfl, hroot, hst, ?_⟩
      have : fromSlash [l, ':'] = [l, ':'] := by
        apply fromSlash_eq_self
        intro x hx
        simp only [List.mem_cons, List.mem_singleton, List.not_mem_nil, or_false] at hx
        rcases hx with rfl | rfl
        · intro e
          rw [e] at hl
          exact absurd hl (by decide)
        · decide
      rw [this]
      exact hst
  · obtain ⟨s1, s2, s3, h0, c, host, sh, tail, hp, h1, h2, h3, hh0, hh0d, hhost, hc, hcd, hsh,
      htail⟩ := volumeNameLen_unc_shape h.data hunc
    have hlen := volumeNameLen_unc s1 s2 s3 h0 c host sh tail h1 h2 h3 hh0 hh0d hhost hc hcd hsh
      htail
    rw [← hp] at hlen
    have hsplit : h.data = (s1 :: s2 :: ((h0 :: host) ++ s3 :: (c :: sh))) ++ tail := by
      rw [hp]; simp
    have hvl : (s1 :: s2 :: ((h0 :: host) ++ s3 :: (c :: sh))).length
        = 2 + (h0 :: host).length + 1 + (c :: sh).length := by
      simp only [List.length_cons, List.length_append]
      omega
    rw [hlen, hsplit, List.drop_left' hvl] at hroot
    cases tail with
    | nil => simp [isRooted] at hroot
    | cons s hr =>
      refine ⟨s1 :: s2 :: ((h0 :: host) ++ s3 :: (c :: sh)), s, hr, hsplit, hroot, ?_, ?_⟩
      · refine ⟨by simp, fun s' rest hs' => ?_⟩
        have := volumeNameLen_unc s1 s2 s3 h0 c host sh (s' :: rest) h1 h2 h3 hh0 hh0d hhost hc
          hcd hsh (Or.inr ⟨s', rest, rfl, hs'⟩)
        rw [hvl, ← this]
        simp
      · have hH : NoSep true (h0 :: host) := by
          intro x hx
          rcases List.mem_cons.1 hx with rfl | hx
          · exact hh0
          · exact hhost x hx
        have hS : NoSep true (c :: sh) := by
          intro x hx
          rcases List.mem_cons.1 hx with rfl | hx
          · exact hc
          · exact hsh x hx
        have hfs : fromSlash (s1 :: s2 :: ((h0 :: host) ++ s3 :: (c :: sh)))
            = (if s1 = '/' then '\\' else s1) :: (if s2 = '/' then '\\' else s2) ::
              ((h0 :: host) ++ (if s3 = '/' then '\\' else s3) :: (c :: sh)) := by
          have e1 := fromSlash_noSep _ hhost
          have e2 := fromSlash_noSep _ hsh
          simp only [fromSlash] at e1 e2
          have n1 : h0 ≠ '/' := by
            intro e
            rw [e] at hh0
            simp [isSep] at hh0
          have n2 : c ≠ '/' := by
            intro e
            rw [e] at hc
            simp [isSep] at hc
          simp only [fromSlash, List.map_cons, List.map_append, e1, e2, if_neg n1, if_neg n2,
            List.cons_append]
        rw [hfs]
        refine ⟨by simp, fun s' rest hs' => ?_⟩
        have := volumeNameLen_unc _ _ _ h0 c host sh (s' :: rest) (isSep_fromSlash_char h1)
          (isSep_fromSlash_char h2) (isSep_fromSlash_char h3) hh0 hh0d hhost hc hcd hsh
          (Or.inr ⟨s', rest, rfl, hs'⟩)
        have hvl2 : ((if s1 = '/' then '\\' else s1) :: (if s2 = '/' then '\\' else s2) ::
              ((h0 :: host) ++ (if s3 = '/' then '\\' else s3) :: (c :: sh))).length
            = 2 + (h0 :: host).length + 1 + (c :: sh).length := by
          simp only [List.length_cons, List.length_append]
          omega
        rw [hvl2, ← this]
        simp

theorem mem_joinSep (win : Bool) (cs : List (List Char)) (x : Char) (h : x ∈ joinSep win cs) :
    x = sepChar win ∨ ∃ c ∈ cs, x ∈ c := by
  induction cs with
  | nil => simp [joinSep] at h
  | cons c rest ih =>
    cases rest with
    | nil =>
      simp only [joinSep] at h
      exact Or.inr ⟨c, by simp, h⟩
    | cons y rest2 =>
      simp only [joinSep, List.mem_append, List.mem_cons] at h
      rcases h with h | h | h
      · exact Or.inr ⟨c, by simp, h⟩
      · exact Or.inl h
      · rcases ih h with h | ⟨c2, hc2, hx⟩
        · exact Or.inl h
        · exact Or.inr ⟨c2, List.mem_cons_of_mem _ hc2, hx⟩

theorem render_windows_noSlash {r : Bool} {st : List (List Char)} (h : NormalStack true r st) :
    ∀ x ∈ render true r st, x ≠ '/' := by
  intro x hx
  unfold render at hx
  simp only at hx
  have hbody : ∀ y ∈ joinSep true st.reverse, y ≠ '/' := by
    intro y hy
    rcases mem_joinSep true _ y hy with h1 | ⟨c, hc, hyc⟩
    · rw [h1]; decide
    · have := (normalStack_noSep h c (by simpa using hc)).2 y hyc
      intro e
      rw [e] at this
      simp [isSep] at this
  by_cases hres : (if r = true then sepChar true :: joinSep true st.reverse
      else joinSep true st.reverse) = []
  · rw [if_pos hres] at hx
    simp only [List.mem_singleton] at hx
    rw [hx]; decide
  · rw [if_neg hres] at hx
    cases r with
    | true =>
      simp only [if_true, List.mem_cons] at hx
      rcases hx with h1 | h1
      · rw [h1]; decide
      · exact hbody x h1
    | false =>
      simp only [Bool.false_eq_true, if_false] at hx
      exact hbody x hx

/-- The rendering of a rooted path starts with the separator. -/
theorem render_rooted (win : Bool) (st : List (List Char)) :
    render win true st = sepChar win :: joinSep win st.reverse := by
  simp [render]

/-- Cleaning a path with a stable volume name: the volume name is kept and the
rest goes through the loop of `filepath.Clean`. -/
theorem winCleanChars_vol (vol : List Char) (hv : SepStable vol) (s : Char) (rest : List Char)
    (hs : isSep true s = true) :
    winCleanChars (vol ++ s :: rest) = fromSlash vol ++ fromSlash (cleanLoop true (s :: rest)) := by
  unfold winCleanChars
  rw [hv.2 s rest hs, List.drop_left, List.take_left, if_neg (by simp), fromSlash_append]

theorem isUNC_vol (vol : List Char) (hv : SepStable vol) (s : Char) (rest : List Char)
    (hs : isSep true s = true) : isUNC (vol ++ s :: rest) = decide (2 < vol.length) := by
  simp [isUNC, hv.2 s rest hs]

theorem isBareDrive_long (a b c : Char) (rest : List Char) :
    isBareDrive (a :: b :: c :: rest) = false := by
  simp [isBareDrive]

theorem isBareDrive_vol (vol : List Char) (hv : SepStable vol) (s : Char) (rest : List Char) :
    isBareDrive (vol ++ s :: rest) = false := by
  obtain ⟨hlen, -⟩ := hv
  cases vol with
  | nil => simp at hlen
  | cons a t1 =>
    cases t1 with
    | nil => simp at hlen
    | cons b t2 =>
      cases t2 with
      | nil => exact isBareDrive_long _ _ _ _
      | cons c t3 => exact isBareDrive_long _ _ _ _

theorem volForm_ne_empty {vol : List Char} {st : List (List Char)} {D : String}
    (h : VolForm vol st D) : D ≠ "" := by
  intro e
  have := h.2.2.2.2
  rw [e, render_rooted] at this
  have h2 := congrArg List.length this
  simp at h2
  omega

/-- What `joinNonEmpty` returns when the cleaned joined path and the cleaned
first element have the same stable volume name. -/
theorem winJoinNonEmpty_vol (e : String) (rest : List String) (vol : List Char)
    (hv : SepStable vol) (s1 s2 : Char) (r1 r2 : List Char) (hs1 : isSep true s1 = true)
    (hs2 : isSep true s2 = true) (hbare : isBareDrive e.data = false)
    (hp : winCleanChars (joinElems true (e :: rest)) = vol ++ s1 :: r1)
    (hhead : winCleanChars e.data = vol ++ s2 :: r2) :
    winJoinNonEmpty e rest = vol ++ s1 :: r1 := by
  unfold winJoinNonEmpty
  rw [hbare, hp, hhead, isUNC_vol vol hv s1 r1 hs1, isUNC_vol vol hv s2 r2 hs2]
  by_cases h : 2 < vol.length <;> simp [h]

/-- Joining an absolute windows path with file names gives a cleaned absolute
path. -/
theorem volForm_winJoin_names (a : String) (ha : winIsAbs a = true) (cs : List String)
    (hne : cs ≠ []) (hcs : ∀ c ∈ cs, PlainComp true c.data) :
    ∃ vol st, VolForm vol st (winJoin (a :: cs)) := by
  have hpl : ∀ c ∈ cs.map String.data, PlainComp true c := by
    intro c hc
    obtain ⟨s, hs, rfl⟩ := List.mem_map.1 hc
    exact hcs s hs
  have hmne : cs.map String.data ≠ [] := by simpa using hne
  obtain ⟨vol, s, hr, hdata, hs, hv, hv2⟩ := winIsAbs_shape a ha
  have hane : a ≠ "" := by
    intro e
    rw [e] at hdata
    have := congrArg List.length hdata
    simp at this
    omega
  have hst : NormalStack true true
      ((cs.map String.data).reverse ++ (splitSep true (s :: hr)).foldl (cleanStep true) []) := by
    rw [← foldl_cleanStep_plain true _ _ hpl]
    exact foldl_cleanStep_normal _ _ _ (fun c hc => (hpl c hc).2.2.2) _
      (foldl_cleanStep_normal _ _ _ (splitSep_noSep_mem _ _) _ trivial)
  refine ⟨fromSlash vol, (cs.map String.data).reverse ++
    (splitSep true (s :: hr)).foldl (cleanStep true) [], hv2, fromSlash_no_slash vol, hst,
    by simp [hne], ?_⟩
  rw [winJoin_cons_of_ne a cs hane]
  show winJoinNonEmpty a cs = _
  have hroot : isRooted true (s :: hr) = true := hs
  have hclean : winCleanChars (joinElems true (a :: cs)) =
      fromSlash vol ++ render true true ((cs.map String.data).reverse ++
        (splitSep true (s :: hr)).foldl (cleanStep true) []) := by
    cases cs with
    | nil => exact absurd rfl hne
    | cons c rest =>
      show winCleanChars (a.data ++ '\\' :: joinElems true (c :: rest)) = _
      rw [hdata]
      have : (vol ++ s :: hr) ++ '\\' :: joinElems true (c :: rest)
          = vol ++ s :: (hr ++ '\\' :: joinElems true (c :: rest)) := by simp
      rw [this, winCleanChars_vol vol hv s _ hs]
      have h2 : s :: (hr ++ '\\' :: joinElems true (c :: rest))
          = (s :: hr) ++ '\\' :: joinElems true (c :: rest) := rfl
      rw [h2, cleanLoop_append true (s :: hr) (by simp) _ '\\' rfl, hroot, joinElems_eq_joinSep,
        splitSep_joinSep _ _ hmne (fun x hx => (hpl x hx).2.2.2),
        foldl_cleanStep_plain true _ _ hpl,
        fromSlash_eq_self _ (render_windows_noSlash hst)]
  have hhead : winCleanChars a.data = fromSlash vol ++
      sepChar true :: fromSlash (joinSep true
        ((splitSep true (s :: hr)).foldl (cleanStep true) []).reverse) := by
    rw [hdata, winCleanChars_vol vol hv s hr hs]
    unfold cleanLoop
    rw [hroot, render_rooted]
    simp [fromSlash, sepChar]
  rw [render_rooted] at hclean ⊢
  exact winJoinNonEmpty_vol a cs (fromSlash vol) hv2 (sepChar true) (sepChar true) _ _
    (isSep_sepChar true) (isSep_sepChar true)
    (by rw [hdata]; exact isBareDrive_vol vol hv s hr) hclean hhead

/-- Joining a cleaned absolute windows path with file names appends them. -/
theorem volForm_winJoin_append {vol : List Char} {st : List (List Char)} {D : String}
    (h : VolForm vol st D) (cs : List String) (hne : cs ≠ [])
    (hcs : ∀ c ∈ cs, PlainComp true c.data) :
    VolForm vol ((cs.map String.data).reverse ++ st) (winJoin (D :: cs)) := by
  have hpl : ∀ c ∈ cs.map String.data, PlainComp true c := by
    intro c hc
    obtain ⟨s, hs, rfl⟩ := List.mem_map.1 hc
    exact hcs s hs
  have hmne : cs.map String.data ≠ [] := by simpa using hne
  have hDne := volForm_ne_empty h
  obtain ⟨hv, hvs, hnorm, hstne, hdata⟩ := h
  have hst : NormalStack true true ((cs.map String.data).reverse ++ st) := by
    rw [← foldl_cleanStep_plain true _ _ hpl]
    exact foldl_cleanStep_normal _ _ _ (fun c hc => (hpl c hc).2.2.2) _ hnorm
  refine ⟨hv, hvs, hst, by simp [hne], ?_⟩
  rw [winJoin_cons_of_ne D cs hDne]
  show winJoinNonEmpty D cs = _
  have hR : render true true st = sepChar true :: joinSep true st.reverse := render_rooted _ _
  have hclean : winCleanChars (joinElems true (D :: cs)) =
      vol ++ render true true ((cs.map String.data).reverse ++ st) := by
    cases cs with
    | nil => exact absurd rfl hne
    | cons c rest =>
      show winCleanChars (D.data ++ '\\' :: joinElems true (c :: rest)) = _
      rw [hdata]
      have : (vol ++ render true true st) ++ '\\' :: joinElems true (c :: rest)
          = vol ++ sepChar true ::
            (joinSep true st.reverse ++ '\\' :: joinElems true (c :: rest)) := by
        rw [hR]; simp
      rw [this, winCleanChars_vol vol hv _ _ (isSep_sepChar true)]
      have h2 : sepChar true :: (joinSep true st.reverse ++ '\\' :: joinElems true (c :: rest))
          = render true true st ++ '\\' :: joinElems true (c :: rest) := by
        rw [hR]; rfl
      rw [h2, cleanLoop_render_append hnorm hstne _ '\\' rfl, joinElems_eq_joinSep,
        splitSep_joinSep _ _ hmne (fun x hx => (hpl x hx).2.2.2),
        foldl_cleanStep_plain true _ _ hpl, fromSlash_eq_self _ hvs,
        fromSlash_eq_self _ (render_windows_noSlash hst)]
  have hhead : winCleanChars D.data = vol ++ sepChar true ::
      fromSlash (joinSep true
        ((splitSep true (render true true st)).foldl (cleanStep true) []).reverse) := by
    rw [hdata]
    have : vol ++ render true true st = vol ++ sepChar true :: joinSep true st.reverse := by
      rw [hR]
    rw [this, winCleanChars_vol vol hv _ _ (isSep_sepChar true), fromSlash_eq_self _ hvs, ← hR]
    unfold cleanLoop
    have hroot : isRooted true (render true true st) = true := by
      rw [hR]; exact isSep_sepChar true
    rw [hroot, render_rooted]
    simp [fromSlash, sepChar]
  rw [render_rooted] at hclean ⊢
  exact winJoinNonEmpty_vol D cs vol hv (sepChar true) (sepChar true) _ _
    (isSep_sepChar true) (isSep_sepChar true)
    (by rw [hdata, hR]; exact isBareDrive_vol vol hv _ _) hclean hhead

/-- The directory of a cleaned absolute windows path with at least two
components is the cleaned path without its last component. -/
theorem winDir_volForm {vol : List Char} {st : List (List Char)} {c : List Char} {P Q : String}
    (hP : VolForm vol (c :: st) P) (hQ : VolForm vol st Q) :
    (⟨winDir P.data⟩ : String) = Q := by
  apply String.ext
  show winDir P.data = Q.data
  obtain ⟨hv, hvs, hnormP, -, hPd⟩ := hP
  obtain ⟨-, -, hnorm, hstne, hQd⟩ := hQ
  have hc := (normalStack_noSep hnormP c (by simp)).2
  obtain ⟨hr, c0, t, hc0, hsep0, hj⟩ := render_normal hnorm hstne
  have hshape : ∃ a rest, isSep true a = false ∧ render true true st = '\\' :: a :: rest := by
    cases c0 with
    | nil => exact absurd rfl hc0
    | cons a as =>
      refine ⟨a, as ++ t, hsep0 a (by simp), ?_⟩
      rw [hr, hj]
      rfl
  obtain ⟨a, rest, ha, hrender⟩ := hshape
  have hsub : upToLastSep true (render true true (c :: st)) = render true true st ++ ['\\'] := by
    rw [render_cons hnorm hstne]
    exact upToLastSep_append true _ _ '\\' rfl hc
  have hvol0 : volumeNameLen (render true true st ++ ['\\']) = 0 := by
    rw [hrender]
    exact volumeNameLen_rooted '\\' a _ rfl ha
  have hcleansub : winCleanChars (render true true st ++ ['\\']) = render true true st := by
    unfold winCleanChars
    rw [hvol0]
    simp only [List.drop_zero, List.take_zero, List.nil_append]
    rw [if_neg (by simp), cleanLoop_render_append hnorm hstne [] '\\' rfl]
    simp only [splitSep, List.foldl_cons, List.foldl_nil, cleanStep, if_true]
    exact fromSlash_eq_self _ (render_windows_noSlash hnorm)
  have hvlen : volumeNameLen (vol ++ render true true (c :: st)) = vol.length := by
    rw [render_rooted]
    exact hv.2 _ _ (isSep_sepChar true)
  have hnotdot : render true true st ≠ ['.'] := by
    rw [hrender]; simp
  unfold winDir
  rw [hPd, hvlen, List.drop_left, List.take_left, hsub, hcleansub, hQd]
  rw [if_neg (fun h => hnotdot h.1)]

theorem plainComp_of_literal (win : Bool) (s : String)
    (h : (s.data ≠ [] ∧ s.data ≠ ['.'] ∧ s.data ≠ ['.', '.']) ∧
      s.data.all (fun c => !isSep win c) = true) : PlainComp win s.data := by
  refine ⟨h.1.1, h.1.2.1, h.1.2.2, ?_⟩
  intro x hx
  have := List.all_eq_true.1 h.2 x hx
  simpa using this

/-- On windows, the directory of a file placed in `Join [D, b]`, for a cleaned
absolute path `D`, is `Join [D, b]`. -/
theorem Dir_Join_file_windows (D b ts : String) (vol : List Char) (st : List (List Char))
    (hD : VolForm vol st D) (hb : PlainComp true b.data) (hts : PlainComp true ts.data) :
    Dir "windows" (Join "windows" [D, b, ts]) = Join "windows" [D, b] := by
  have h2 := volForm_winJoin_append hD [b, ts] (by simp) (by simp [hb, hts])
  have h1 := volForm_winJoin_append hD [b] (by simp) (by simp [hb])
  rw [Join_windows, Join_windows, Dir_windows]
  exact winDir_volForm (by simpa using h2) (by simpa using h1)

/-! ## The default directories -/

theorem plainComp_names (win : Bool) (cs : List String)
    (h : cs.all (fun s => (decide (s.data ≠ []) && decide (s.data ≠ ['.']) &&
      decide (s.data ≠ ['.', '.'])) && s.data.all (fun c => !isSep win c)) = true) :
    ∀ c ∈ cs, PlainComp win c.data := by
  intro c hc
  have := List.all_eq_true.1 h c hc
  simp only [Bool.and_eq_true, decide_eq_true_eq] at this
  exact plainComp_of_literal win c ⟨⟨this.1.1.1, this.1.1.2, this.1.2⟩, this.2⟩

/-- On a build with the separator `/`, the default data directory of a
non-empty home directory is a cleaned path with at least one component. -/
theorem cleanForm_defaultDataDir (w : World) (hg : w.goos ≠ "windows") (h : homeDir w ≠ "") :
    ∃ r st, CleanForm r st (defaultDataDir w) := by
  unfold defaultDataDir
  rw [if_pos h]
  split
  · rw [Join_of_not_windows hg]
    exact cleanForm_unixJoin_names _ h _ (by simp) (plainComp_names false _ (by decide))
  · rw [Join_of_not_windows hg]
    exact cleanForm_unixJoin_names _ h _ (by simp) (plainComp_names false _ (by decide))

theorem homeDir_ne_of_winIsAbs (w : World) (h : winIsAbs (homeDir w) = true) :
    homeDir w ≠ "" := by
  intro e
  rw [e] at h
  exact absurd h (by decide)

/-- On windows, the default data directory of an absolute home directory is a
cleaned absolute path with at least one component. -/
theorem volForm_defaultDataDir (w : World) (hg : w.goos = "windows")
    (h : winIsAbs (homeDir w) = true) :
    ∃ vol st, VolForm vol st (defaultDataDir w) := by
  unfold defaultDataDir
  rw [if_pos (homeDir_ne_of_winIsAbs w h), hg, if_neg (by decide), if_pos rfl, Join_windows]
  exact volForm_winJoin_names _ h _ (by simp) (plainComp_names true _ (by decide))

/-- The directory of a file named `ts` placed in the directory `b` of the
default data directory is `Join(defaultDataDir(), b)`: for every non-empty home
directory on a build with the separator `/`, and for every absolute home
directory on windows. -/
theorem Dir_defaultDataDir_file (w : World)
    (hw : (w.goos ≠ "windows" ∧ homeDir w ≠ "") ∨
      (w.goos = "windows" ∧ winIsAbs (homeDir w) = true))
    (b ts : String) (hb : PlainComp (w.goos = "windows") b.data)
    (hts : isFileName w.goos ts = true) :
    Dir w.goos (Join w.goos [defaultDataDir w, b, ts]) = Join w.goos [defaultDataDir w, b] := by
  rcases hw with ⟨hg, h⟩ | ⟨hg, h⟩
  · obtain ⟨r, st, hD⟩ := cleanForm_defaultDataDir w hg h
    exact Dir_Join_file hg _ _ _ r st hD (by simpa [hg] using hb)
      (plainComp_false_of_isFileName hg hts)
  · obtain ⟨vol, st, hD⟩ := volForm_defaultDataDir w hg h
    rw [hg] at hts hb ⊢
    exact Dir_Join_file_windows _ _ _ vol st hD (by simpa using hb)
      (plainComp_true_of_isFileName hts)

/-- For every non-empty `dir` and every timestamp that is a file name, on a
build with the separator `/`, the parent directory of the path `createAccount`
saves the private key at is `Join(dir, "PrivateKey", "PrivateKey")`, which
differs from the directory `Join(dir, "PrivateKey")` that
`makePrivDirWithExistPath` created. -/
theorem privKeyPath_parent (goos : String) (hg : goos ≠ "windows") (dir ts : String)
    (hd : dir ≠ "") (hts : isFileName goos ts = true) :
    Dir goos (Join goos [Join goos [dir, "PrivateKey"], "PrivateKey", ts])
        = Join goos [Join goos [dir, "PrivateKey"], "PrivateKey"] ∧
      Dir goos (Join goos [Join goos [dir, "PrivateKey"], "PrivateKey", ts])
        ≠ Join goos [dir, "PrivateKey"] := by
  have hP : PlainComp false "PrivateKey".data :=
    plainComp_names false ["PrivateKey"] (by decide) _ (by simp)
  obtain ⟨r, st, hD⟩ := cleanForm_unixJoin_names dir hd ["PrivateKey"] (by simp)
    (plainComp_names false _ (by decide))
  rw [← Join_of_not_windows hg] at hD
  have h1 := Dir_Join_file hg _ "PrivateKey" ts r st hD hP (plainComp_false_of_isFileName hg hts)
  refine ⟨h1, ?_⟩
  rw [h1]
  have h2 := cleanForm_unixJoin_append hD ["PrivateKey"] (by simp)
    (plainComp_names false _ (by decide))
  rw [← Join_of_not_windows hg] at h2
  exact cleanForm_cons_ne (by simpa using h2) hD
/-! ## Claims on the directories -/

/-- C6: for the home directory `homeDir` returns, `defaultDataDir` is empty when
the home directory is empty; otherwise it is the home directory joined with
`Library/Application Support/Account` on darwin, with `AppData/Roaming/Account`
on windows and with `Account` on any other system, and it is not empty. -/
theorem defaultDataDir_by_os (w : World) :
    (homeDir w = "" → defaultDataDir w = "") ∧
      (homeDir w ≠ "" → w.goos = "darwin" →
        defaultDataDir w = Join w.goos [homeDir w, "Library", "Application Support", "Account"]) ∧
      (homeDir w ≠ "" → w.goos = "windows" →
        defaultDataDir w = Join w.goos [homeDir w, "AppData", "Roaming", "Account"]) ∧
      (homeDir w ≠ "" → w.goos ≠ "darwin" → w.goos ≠ "windows" →
        defaultDataDir w = Join w.goos [homeDir w, "Account"]) ∧
      (homeDir w ≠ "" → defaultDataDir w ≠ "") := by
  refine ⟨?_, ?_, ?_, ?_, ?_⟩
  · intro h; simp [defaultDataDir, h]
  · intro h hd; simp [defaultDataDir, h, hd]
  · intro h hw; simp [defaultDataDir, h, hw]
  · intro h hd hw; simp [defaultDataDir, h, hd, hw]
  · intro h
    unfold defaultDataDir
    rw [if_pos h]
    split
    · exact Join_ne_empty _ _ ⟨_, List.mem_cons_self _ _, h⟩
    · split
      · exact Join_ne_empty _ _ ⟨_, List.mem_cons_self _ _, h⟩
      · exact Join_ne_empty _ _ ⟨_, List.mem_cons_self _ _, h⟩

/-- The default data directory of the sample world, on Linux, and of the home
directory `C:\Users\u` on windows. -/
theorem defaultDataDir_by_os_witness :
    defaultDataDir (sampleWorld "pw" "pw") = Join "linux" ["/home/u", "Account"] ∧
      defaultDataDir (sampleWorld "pw" "pw") ≠ "" ∧
      defaultDataDir (windowsWorld "C:\\Users\\u") = "C:\\Users\\u\\AppData\\Roaming\\Account" :=
  ⟨(defaultDataDir_by_os (sampleWorld "pw" "pw")).2.2.2.1 (by decide) (by decide) (by decide),
    (defaultDataDir_by_os (sampleWorld "pw" "pw")).2.2.2.2 (by decide),
    ((defaultDataDir_by_os (windowsWorld "C:\\Users\\u")).2.2.1 (by decide) rfl).trans
      (by decide)⟩

theorem makeDefaultDir_eq (w : World) (h : homeDir w ≠ "") :
    makeDefaultDir w =
      (do
        mkdirAllOrFatal w "private key" (Join w.goos [defaultDataDir w, "PrivateKey"])
        mkdirAllOrFatal w "keystore" (Join w.goos [defaultDataDir w, "KeyStore"])) := by
  unfold makeDefaultDir defaultDataDir
  rw [if_pos h, if_pos h]

/-- The run of `makeDefaultDir` for a non-empty home directory. -/
theorem runMakeDefaultDir_run (w : World) (h : homeDir w ≠ "") :
    runMakeDefaultDir w =
      match w.mkdirAll (Join w.goos [defaultDataDir w, "PrivateKey"]) with
      | some err =>
        { events :=
            [ .mkdirAll (Join w.goos [defaultDataDir w, "PrivateKey"]) 0o700,
              .fatalPrint (fatalWriter w)
                ("Fatal: " ++ ("create private key dir [" ++
                  Join w.goos [defaultDataDir w, "PrivateKey"] ++ "]: " ++ err) ++ "\n") ]
          outcome := .exit 1 }
      | none =>
        match w.mkdirAll (Join w.goos [defaultDataDir w, "KeyStore"]) with
        | some err =>
          { events :=
              [ .mkdirAll (Join w.goos [defaultDataDir w, "PrivateKey"]) 0o700,
                .mkdirAll (Join w.goos [defaultDataDir w, "KeyStore"]) 0o700,
                .fatalPrint (fatalWriter w)
                  ("Fatal: " ++ ("create keystore dir [" ++
                    Join w.goos [defaultDataDir w, "KeyStore"] ++ "]: " ++ err) ++ "\n") ]
            outcome := .exit 1 }
        | none =>
          { events :=
              [ .mkdirAll (Join w.goos [defaultDataDir w, "PrivateKey"]) 0o700,
                .mkdirAll (Join w.goos [defaultDataDir w, "KeyStore"]) 0o700 ]
            outcome := .ret none } := by
  unfold runMakeDefaultDir
  rw [makeDefaultDir_eq w h]
  cases h1 : w.mkdirAll (Join w.goos [defaultDataDir w, "PrivateKey"]) <;>
    cases h2 : w.mkdirAll (Join w.goos [defaultDataDir w, "KeyStore"]) <;>
    simp [runHandler, mkdirAllOrFatal, fatal, osExit, h1, h2, emit, bind, Prog.bind, pure,
      Prog.pure, St.init]

theorem runMakeDefaultDir_noHome (w : World) (h : homeDir w = "") :
    runMakeDefaultDir w = { events := [], outcome := .ret none } := by
  simp [runMakeDefaultDir, makeDefaultDir, h, runHandler, bind, Prog.bind, pure, Prog.pure,
    St.init]

/-! ## Claims on `createAccount` and `parseAccount` -/

/-- C7: with neither `priv` nor `keystore` set, `createAccount` only prints the
hint and returns nil, whatever `export` and `dir` are: no key is generated, no
passphrase is asked for, nothing is written; `parseAccount` with both paths
empty does the same. -/
theorem createAccount_parseAccount_without_selection (L : Lib) (w : World)
    (exportFlag : Bool) (dir : String) :
    createAccount L w { priv := false, keystore := false, exportFlag := exportFlag, dir := dir }
        = { events := [.println "should specify `priv` or `keystore`"], outcome := .ret none } ∧
      parseAccount L w { priv := "", keystore := "" }
        = { events := [.println "should specify `priv` or `keystore`"], outcome := .ret none } :=
  ⟨createAccount_noFlag L w _ rfl rfl, parseAccount_noFlag L w _ rfl rfl⟩

/-- C4: in a run of `createAccount` with `keystore` set where the passphrase is
read and the first read returns the empty string, the handler returns the error
`non-empty passphrase required`; the run consists of the key generation and that
single terminal session, so there is no confirmation prompt, no encryption, no
printed line and no file system change, whatever `priv`, `export` and `dir` are. -/
theorem createAccount_empty_passphrase (L : Lib) (w : World) (ctx : CreateCtx)
    (hk : ctx.keystore = true)
    (hread : Event.ttyRead ∈ (createAccount L w ctx).events)
    (h0 : w.tty "Enter passphrase: " = .ok "") :
    (createAccount L w ctx).outcome = .ret (some "non-empty passphrase required") ∧
      (createAccount L w ctx).events
        = [.generateKey, .ttyOpen, .ttyPrompt "Enter passphrase: ", .ttyRead, .ttyClose] ∧
      (∀ e ∈ (createAccount L w ctx).events,
        e ≠ .ttyPrompt "Confirm passphrase: " ∧ e.isEncryptKey = false ∧
          e.isPrintln = false ∧ e.isFsWrite = false) := by
  have hsel : (ctx.priv || ctx.keystore) = true := by simp [hk]
  cases hg : w.generateKey with
  | error err =>
    rw [createAccount_genError L w ctx err hsel hg] at hread
    simp at hread
  | ok k =>
    have hrun : createAccount L w ctx =
        { events := [.generateKey, .ttyOpen, .ttyPrompt "Enter passphrase: ", .ttyRead, .ttyClose]
          outcome := .ret (some "non-empty passphrase required") } := by
      rw [createAccount_genOk L w ctx k hsel hg]
      simp [runHandler, keystoreBlock, readPasswordFromNewTTY, h0, hk, orReturn, emit,
        returnErr, bind, Prog.bind, pure, Prog.pure]
    rw [hrun]
    refine ⟨rfl, rfl, ?_⟩
    intro e he
    simp only [List.mem_cons, List.mem_singleton, List.not_mem_nil, or_false] at he
    rcases he with rfl | rfl | rfl | rfl | rfl <;>
      simp [Event.isEncryptKey, Event.isPrintln, Event.isFsWrite]

/-- The sample run with an empty first passphrase and all flags set. -/
theorem createAccount_empty_passphrase_witness :
    (createAccount sampleLib (sampleWorld "" "")
        { priv := true, keystore := true, exportFlag := true, dir := "/tmp/x" }).outcome
      = .ret (some "non-empty passphrase required") :=
  (createAccount_empty_passphrase sampleLib (sampleWorld "" "")
    { priv := true, keystore := true, exportFlag := true, dir := "/tmp/x" }
    rfl (by decide) rfl).1

/-- C5: in a run of `createAccount` with `keystore` set where the passphrase is
read, both reads succeed, the first is non-empty and the confirmation differs,
the handler returns the error `passphrase confirmation mismatch`; the run
consists of the key generation and the two terminal sessions, so nothing is
encrypted, printed or written.  Conversely, in every run, a call of
`keystore.EncryptKey` uses a passphrase that is non-empty and is what both
reads returned. -/
theorem createAccount_passphrase_confirmation (L : Lib) (w : World) (ctx : CreateCtx) :
    (∀ p1 p2, ctx.keystore = true → Event.ttyRead ∈ (createAccount L w ctx).events →
      w.tty "Enter passphrase: " = .ok p1 → w.tty "Confirm passphrase: " = .ok p2 →
      p1 ≠ "" → p2 ≠ p1 →
      (createAccount L w ctx).outcome = .ret (some "passphrase confirmation mismatch") ∧
        (createAccount L w ctx).events =
          .generateKey :: (ttyEvents "Enter passphrase: " ++ ttyEvents "Confirm passphrase: ") ∧
        ∀ e ∈ (createAccount L w ctx).events,
          e.isEncryptKey = false ∧ e.isPrintln = false ∧ e.isFsWrite = false) ∧
      ∀ key auth n p, Event.encryptKey key auth n p ∈ (createAccount L w ctx).events →
        auth ≠ "" ∧ w.tty "Enter passphrase: " = .ok auth ∧
          w.tty "Confirm passphrase: " = .ok auth := by
  constructor
  · intro p1 p2 hk hread h1 h2 hne hdiff
    have hsel : (ctx.priv || ctx.keystore) = true := by simp [hk]
    cases hg : w.generateKey with
    | error err =>
      rw [createAccount_genError L w ctx err hsel hg] at hread
      simp at hread
    | ok k =>
      have hrun : createAccount L w ctx =
          { events :=
              .generateKey :: (ttyEvents "Enter passphrase: " ++ ttyEvents "Confirm passphrase: ")
            outcome := .ret (some "passphrase confirmation mismatch") } := by
        rw [createAccount_genOk L w ctx k hsel hg]
        simp [runHandler, keystoreBlock, readPasswordFromNewTTY, h1, h2, hne, Ne.symm hdiff, hk,
          orReturn, emit, returnErr, bind, Prog.bind, pure, Prog.pure, ttyEvents]
      rw [hrun]
      refine ⟨rfl, rfl, ?_⟩
      intro e he
      simp only [ttyEvents, List.cons_append, List.nil_append, List.mem_cons,
        List.mem_singleton, List.not_mem_nil, or_false] at he
      rcases he with rfl | rfl | rfl | rfl | rfl | rfl | rfl | rfl | rfl <;>
        simp [Event.isEncryptKey, Event.isPrintln, Event.isFsWrite]
  · intro key auth n p he
    rcases createAccount_event_cases L w ctx _ he with h | h | ⟨k, -, h⟩
    · cases h
    · simp [Event.isPrintln] at h
    · rcases h with ⟨-, h⟩ | ⟨-, h⟩
      · exact ⟨h.2.1, h.2.2.1, h.2.2.2.1⟩
      · exact absurd h (by simp [PrivAllows])

/-- The sample run where the confirmation `pw2` differs from `pw`. -/
theorem createAccount_passphrase_confirmation_witness :
    (createAccount sampleLib (sampleWorld "pw" "pw2")
        { priv := true, keystore := true, exportFlag := true, dir := "" }).outcome
      = .ret (some "passphrase confirmation mismatch") :=
  ((createAccount_passphrase_confirmation sampleLib (sampleWorld "pw" "pw2")
    { priv := true, keystore := true, exportFlag := true, dir := "" }).1 "pw" "pw2"
    rfl (by decide) rfl rfl (by decide) (by decide)).1

/-- C9: with `export` unset, a run of `createAccount` creates no directory and
writes no file, whatever `dir`, `priv` and `keystore` are; in every run a
keystore file is written only if `keystore` and `export` are set, and a private
key file only if `priv` and `export` are set. -/
theorem createAccount_file_effects (L : Lib) (w : World) (ctx : CreateCtx) :
    (ctx.exportFlag = false → ∀ e ∈ (createAccount L w ctx).events, e.isFsWrite = false) ∧
      (∀ path data perm, Event.writeFile path data perm ∈ (createAccount L w ctx).events →
        ctx.keystore = true ∧ ctx.exportFlag = true) ∧
      (∀ path key, Event.saveECDSA path key ∈ (createAccount L w ctx).events →
        ctx.priv = true ∧ ctx.exportFlag = true) := by
  refine ⟨?_, ?_, ?_⟩
  · intro hx e he
    rcases createAccount_event_cases L w ctx _ he with rfl | h | ⟨k, -, h⟩
    · rfl
    · cases e <;> simp_all [Event.isPrintln, Event.isFsWrite]
    · cases hfs : e.isFsWrite
      · rfl
      · have := createAllows_fsWrite h hfs
        rw [hx] at this
        cases this
  · intro path data perm he
    rcases createAccount_event_cases L w ctx _ he with h | h | ⟨k, -, h⟩
    · cases h
    · simp [Event.isPrintln] at h
    · rcases h with ⟨hk, h⟩ | ⟨-, h⟩
      · exact ⟨hk, h.1⟩
      · exact absurd h (by simp [PrivAllows])
  · intro path key he
    rcases createAccount_event_cases L w ctx _ he with h | h | ⟨k, -, h⟩
    · cases h
    · simp [Event.isPrintln] at h
    · rcases h with ⟨-, h⟩ | ⟨hp, h⟩
      · exact absurd h (by simp [KeystoreAllows])
      · exact ⟨hp, h.1⟩

/-- The sample run without `export` and with a `dir`. -/
theorem createAccount_file_effects_witness :
    ∀ e ∈ (createAccount sampleLib (sampleWorld "pw" "pw")
        { priv := true, keystore := true, exportFlag := false, dir := "/tmp/x" }).events,
      e.isFsWrite = false :=
  (createAccount_file_effects sampleLib (sampleWorld "pw" "pw")
    { priv := true, keystore := true, exportFlag := false, dir := "/tmp/x" }).1 rfl

/-- C8: with a non-empty `priv` path, `parseAccount` is decided by the private
key file alone: it loads it and either returns the load error or prints the
three lines of the address of the loaded key and returns nil; the keystore path
plays no part.  In every run, reading the keystore file, prompting for the
passphrase or decrypting happens only when `priv` is empty and `keystore` is
not; and in that case, when all three succeed, both the private key and the
address of the decrypted key are printed. -/
theorem parseAccount_priv_first (L : Lib) (w : World) (ctx : ParseCtx) :
    (ctx.priv ≠ "" →
      parseAccount L w ctx =
        match w.loadECDSA ctx.priv with
        | .error err => { events := [.loadECDSA ctx.priv], outcome := .ret (some err) }
        | .ok pk =>
          { events :=
              [ .loadECDSA ctx.priv,
                .println "=====  your address ====",
                .println (hexEncode (L.pubkeyToAddress pk.publicKey)),
                .println "========================" ]
            outcome := .ret none }) ∧
      (∀ e ∈ (parseAccount L w ctx).events,
        ((∃ path, e = .readFile path) ∨ e.isTty = true ∨ ∃ b pass, e = .decryptKey b pass) →
          ctx.priv = "" ∧ ctx.keystore ≠ "") ∧
      (∀ b pass key, ctx.priv = "" → ctx.keystore ≠ "" →
        w.readFile ctx.keystore = .ok b → w.tty "Enter passphrase: " = .ok pass →
        L.decryptKey b pass = .ok key →
        parseAccount L w ctx =
          { events :=
              .readFile ctx.keystore :: (ttyEvents "Enter passphrase: " ++
                [ .decryptKey b pass,
                  .println "=====  your private key ====",
                  .println (hexEncode (L.fromECDSA key.privateKey)),
                  .println "======   your address  =====",
                  .println (hexEncode key.address),
                  .println "============================" ])
            outcome := .ret none }) := by
  refine ⟨parseAccount_priv L w ctx, ?_, ?_⟩
  · intro e he hkind
    by_cases hp : ctx.priv = ""
    · refine ⟨hp, ?_⟩
      intro hk
      rw [parseAccount_noFlag L w ctx hp hk] at he
      simp only [List.mem_singleton] at he
      subst he
      rcases hkind with ⟨path, h⟩ | h | ⟨b, pass, h⟩
      · cases h
      · simp [Event.isTty] at h
      · cases h
    · exfalso
      rw [parseAccount_priv L w ctx hp] at he
      cases hl : w.loadECDSA ctx.priv with
      | error err =>
        rw [hl] at he
        simp only [List.mem_singleton] at he
        subst he
        rcases hkind with ⟨path, h⟩ | h | ⟨b, pass, h⟩
        · cases h
        · simp [Event.isTty] at h
        · cases h
      | ok pk =>
        rw [hl] at he
        simp only [List.mem_cons, List.mem_singleton, List.not_mem_nil, or_false] at he
        rcases he with rfl | rfl | rfl | rfl <;>
          rcases hkind with ⟨path, h⟩ | h | ⟨b, pass, h⟩ <;> cases h
  · intro b pass key hp hk hread htty hdec
    exact parseAccount_keystore L w ctx b pass key hp hk hread htty hdec

/-- The sample run of `parse` with both paths given. -/
theorem parseAccount_priv_first_witness :
    parseAccount sampleLib (sampleWorld "pw" "pw")
        { priv := "/home/u/key",
          keystore := "/home/u/Account/KeyStore/2026-11-04 10:05:00 +0000 UTC" }
      = { events :=
            [ .loadECDSA "/home/u/key",
              .println "=====  your address ====",
              .println "0x0304",
              .println "========================" ]
          outcome := .ret none } :=
  (parseAccount_priv_first sampleLib (sampleWorld "pw" "pw")
    { priv := "/home/u/key",
      keystore := "/home/u/Account/KeyStore/2026-11-04 10:05:00 +0000 UTC" }).1 (by decide)

/-- C2: let a run of `createAccount` with `keystore` and `export` set generate
the key `k`, read the passphrase `p` twice and write the keystore `keyjson` at
`kp`.  If the library decrypts what it encrypted from `k` under `p` to a key
with private key `k` and the address of `k`, and if reading `kp` gives
`keyjson` back, then `parseAccount` on the keystore path `kp` with passphrase
`p` returns nil and prints the hex of `k` and of the address derived from the
public key of `k`. -/
theorem create_then_parse_keystore (L : Lib) (cw pw : World) (ctx : CreateCtx)
    (k : PrivateKey) (p kp : String) (keyjson : Bytes)
    (hks : ctx.keystore = true) (hx : ctx.exportFlag = true)
    (hgen : cw.generateKey = .ok k)
    (hne : p ≠ "")
    (h1 : cw.tty "Enter passphrase: " = .ok p) (h2 : cw.tty "Confirm passphrase: " = .ok p)
    (hcontract : ∀ json,
      L.encryptKey (keystoreKeyOf L cw k) p StandardScryptN StandardScryptP cw.rand = .ok json →
        ∃ key, L.decryptKey json p = .ok key ∧ key.privateKey = k ∧
          key.address = L.pubkeyToAddress k.publicKey)
    (hwritten : Event.writeFile kp keyjson 0o600 ∈ (createAccount L cw ctx).events)
    (hwok : cw.writeFile kp keyjson = none)
    (hread : pw.readFile kp = .ok keyjson)
    (hpass : pw.tty "Enter passphrase: " = .ok p) :
    parseAccount L pw { priv := "", keystore := kp } =
      { events :=
          .readFile kp :: (ttyEvents "Enter passphrase: " ++
            [ .decryptKey keyjson p,
              .println "=====  your private key ====",
              .println (hexEncode (L.fromECDSA k)),
              .println "======   your address  =====",
              .println (hexEncode (L.pubkeyToAddress k.publicKey)),
              .println "============================" ])
        outcome := .ret none } := by
  have _ := hks; have _ := hx; have _ := hne; have _ := h2; have _ := hwok
  rcases createAccount_event_cases L cw ctx _ hwritten with h | h | ⟨k2, hg2, h⟩
  · cases h
  · simp [Event.isPrintln] at h
  · have hk : k2 = k := by rw [hgen] at hg2; injection hg2 with h; exact h.symm
    subst hk
    rcases h with ⟨-, h⟩ | ⟨-, h⟩
    · obtain ⟨-, -, ⟨auth, hauth, henc⟩, n, hn⟩ := h
      have ha : auth = p := by rw [h1] at hauth; injection hauth with h; exact h.symm
      subst ha
      obtain ⟨key, hdec, hkp, hka⟩ := hcontract keyjson henc
      have hkpne : kp ≠ "" := by
        rw [hn]
        split
        · rename_i hd
          exact Join_ne_empty _ _ ⟨_, List.mem_cons_self _ _,
            Join_ne_empty _ _ ⟨_, List.mem_cons_self _ _, hd⟩⟩
        · exact Join_ne_empty _ _ ⟨"KeyStore", by simp, by decide⟩
      have := parseAccount_keystore L pw { priv := "", keystore := kp } keyjson auth key rfl
        hkpne hread hpass hdec
      rw [this, hkp, hka]
    · exact absurd h (by simp [PrivAllows])

/-- The sample keystore written by `create` and parsed back. -/
theorem create_then_parse_keystore_witness :
    parseAccount sampleLib (sampleWorld "pw" "pw")
        { priv := "", keystore := "/home/u/Account/KeyStore/2026-11-04 10:05:00 +0000 UTC" } =
      { events :=
          .readFile "/home/u/Account/KeyStore/2026-11-04 10:05:00 +0000 UTC" ::
            (ttyEvents "Enter passphrase: " ++
              [ .decryptKey [5, 3, 4, 112, 119] "pw",
                .println "=====  your private key ====",
                .println (hexEncode (sampleLib.fromECDSA sampleKey)),
                .println "======   your address  =====",
                .println (hexEncode (sampleLib.pubkeyToAddress sampleKey.publicKey)),
                .println "============================" ])
        outcome := .ret none } :=
  create_then_parse_keystore sampleLib (sampleWorld "pw" "pw") (sampleWorld "pw" "pw")
    { priv := false, keystore := true, exportFlag := true, dir := "" } sampleKey "pw"
    "/home/u/Account/KeyStore/2026-11-04 10:05:00 +0000 UTC" [5, 3, 4, 112, 119]
    rfl rfl rfl (by decide) rfl rfl
    (fun json h => by
      have hj : json = [5, 3, 4, 112, 119] := by
        injection h with h
        exact h.symm
      subst hj
      exact ⟨_, rfl, rfl, rfl⟩)
    (by decide) rfl rfl rfl

/-! ## The keystore block and the printed key -/

/-- With the same non-empty passphrase read twice, the keystore block reaches
the call of `keystore.EncryptKey` with the record of the generated key. -/
theorem keystoreBlock_reads (L : Lib) (w : World) (ctx : CreateCtx) (k : PrivateKey)
    (p : String) (s : St) (h1 : w.tty "Enter passphrase: " = .ok p)
    (h2 : w.tty "Confirm passphrase: " = .ok p) (hne : p ≠ "") :
    keystoreBlock L w ctx k s =
      (orReturn (L.encryptKey (keystoreKeyOf L w k) p StandardScryptN StandardScryptP w.rand)
          >>= fun keyjson => keystoreOutput w ctx keyjson)
        { events := s.events ++ (ttyEvents "Enter passphrase: " ++
            (ttyEvents "Confirm passphrase: " ++
              [.encryptKey (keystoreKeyOf L w k) p StandardScryptN StandardScryptP]))
          clock := s.clock } := by
  simp [keystoreBlock, readPasswordFromNewTTY, orReturn, h1, h2, hne, emit, returnErr, bind,
    Prog.bind, pure, Prog.pure, ttyEvents, keystoreKeyOf]

/-- The events of a piece of program extend those of the state it starts in. -/
theorem spec_events {α : Type} {P : Event → Prop} {Q : Stop → Prop} {R : α → Prop}
    {m : Prog α} (h : Spec P Q R m) (s : St) :
    ∃ evs, (m s).state.events = s.events ++ evs ∧ ∀ e ∈ evs, P e :=
  (h s).1

/-- When the keystore block lets the run go on, it has read the same non-empty
passphrase twice and encrypted the record of the generated key with it. -/
theorem keystoreBlock_ok (L : Lib) (w : World) (ctx : CreateCtx) (k : PrivateKey)
    (s s1 : St) (u : Unit) (h : keystoreBlock L w ctx k s = .ok u s1) :
    ∃ p keyjson mid, w.tty "Enter passphrase: " = .ok p ∧
      w.tty "Confirm passphrase: " = .ok p ∧ p ≠ "" ∧
      L.encryptKey (keystoreKeyOf L w k) p StandardScryptN StandardScryptP w.rand = .ok keyjson ∧
      s1.events = s.events ++ (ttyEvents "Enter passphrase: " ++
        (ttyEvents "Confirm passphrase: " ++
          .encryptKey (keystoreKeyOf L w k) p StandardScryptN StandardScryptP :: mid)) ∧
      ∀ e ∈ mid, KeystoreAllows L w ctx k e := by
  cases h1 : w.tty "Enter passphrase: " with
  | openFailed err =>
    simp [keystoreBlock, readPasswordFromNewTTY, orReturn, h1, emit, returnErr, bind,
      Prog.bind, pure, Prog.pure] at h
  | readFailed err =>
    simp [keystoreBlock, readPasswordFromNewTTY, orReturn, h1, emit, returnErr, bind,
      Prog.bind, pure, Prog.pure] at h
  | ok p =>
    by_cases hne : p = ""
    · simp [keystoreBlock, readPasswordFromNewTTY, orReturn, h1, hne, emit, returnErr, bind,
        Prog.bind, pure, Prog.pure] at h
    · cases h2 : w.tty "Confirm passphrase: " with
      | openFailed err =>
        simp [keystoreBlock, readPasswordFromNewTTY, orReturn, h1, h2, hne, emit, returnErr,
          bind, Prog.bind, pure, Prog.pure] at h
      | readFailed err =>
        simp [keystoreBlock, readPasswordFromNewTTY, orReturn, h1, h2, hne, emit, returnErr,
          bind, Prog.bind, pure, Prog.pure] at h
      | ok c =>
        by_cases heq : p = c
        · subst heq
          rw [keystoreBlock_reads L w ctx k p s h1 h2 hne, bind_apply] at h
          cases hj : L.encryptKey (keystoreKeyOf L w k) p StandardScryptN StandardScryptP
              w.rand with
          | error err => simp [orReturn, hj, returnErr] at h
          | ok keyjson =>
            simp only [orReturn, hj, pure, Prog.pure] at h
            obtain ⟨mid, hmid, hP⟩ :=
              spec_events (spec_keystoreOutput L w ctx k keyjson ⟨p, h1, hj⟩)
                { events := s.events ++ (ttyEvents "Enter passphrase: " ++
                    (ttyEvents "Confirm passphrase: " ++
                      [.encryptKey (keystoreKeyOf L w k) p StandardScryptN StandardScryptP]))
                  clock := s.clock }
            rw [h] at hmid
            refine ⟨p, keyjson, mid, rfl, rfl, hne, hj, ?_, hP⟩
            simp only [Res.state] at hmid
            rw [hmid]
            simp [List.append_assoc]
        · simp [keystoreBlock, readPasswordFromNewTTY, orReturn, h1, h2, hne, heq, emit,
            returnErr, bind, Prog.bind, pure, Prog.pure] at h

/-- When `export` is unset, or the file of the keystore is written (after its
directory is created, with a `dir`), the output of the keystore lets the run go
on. -/
theorem keystoreOutput_ok (w : World) (ctx : CreateCtx) (keyjson : Bytes) (s : St)
    (hx : ctx.exportFlag = false ∨
      (ctx.dir = "" ∧
        w.writeFile (Join w.goos [defaultDataDir w, "KeyStore", w.now s.clock]) keyjson = none) ∨
      (ctx.dir ≠ "" ∧ w.mkdirAll (Join w.goos [ctx.dir, "KeyStore"]) = none ∧
        w.writeFile (Join w.goos [Join w.goos [ctx.dir, "KeyStore"], w.now (s.clock + 1)]) keyjson
          = none)) :
    ∃ s1, keystoreOutput w ctx keyjson s = .ok () s1 := by
  rcases hx with hx | ⟨hd, hw⟩ | ⟨hd, hm, hw⟩
  · cases ht : w.stdoutIsTerminal <;>
      simp [keystoreOutput, hx, ht, println, emit, bind, Prog.bind, pure, Prog.pure]
  · cases ht : w.stdoutIsTerminal <;> cases hxx : ctx.exportFlag <;>
      simp [keystoreOutput, exportKeystore, keystorePath, timeNowString, returnIfError, hd, hw,
        hxx, ht, println, emit, bind, Prog.bind, pure, Prog.pure]
  · cases ht : w.stdoutIsTerminal <;> cases hxx : ctx.exportFlag <;>
      simp [keystoreOutput, exportKeystore, keystorePath, makeKeyStoreDirWithExistPath,
        mkdirAllOrFatal, timeNowString, returnIfError, hd, hm, hw, hxx, ht, println, emit, bind,
        Prog.bind, pure, Prog.pure]

/-- The run of `createAccount` with `priv` and `keystore` set, for the
generated key `k`. -/
theorem createAccount_both (L : Lib) (w : World) (ctx : CreateCtx) (k : PrivateKey)
    (hp : ctx.priv = true) (hk : ctx.keystore = true) (hg : w.generateKey = .ok k) :
    createAccount L w ctx =
      match keystoreBlock L w ctx k { events := [.generateKey], clock := 0 } with
      | .stop o s1 => { events := s1.events, outcome := o }
      | .ok _ s1 =>
        { events := (privBlock L w ctx k s1).state.events
          outcome :=
            match privBlock L w ctx k s1 with
            | .ok _ _ => .ret none
            | .stop o _ => o } := by
  rw [createAccount_genOk L w ctx k (by simp [hp]) hg]
  simp only [runHandler, bind_apply, hp, hk, if_true]
  cases keystoreBlock L w ctx k { events := [.generateKey], clock := 0 } with
  | stop o s1 => rfl
  | ok u s1 =>
    dsimp only
    cases privBlock L w ctx k s1 with
    | stop o s2 => rfl
    | ok u2 s2 => rfl

/-- The run of `createAccount` with `keystore` set and `priv` unset. -/
theorem createAccount_keystoreOnly (L : Lib) (w : World) (ctx : CreateCtx) (k : PrivateKey)
    (hp : ctx.priv = false) (hk : ctx.keystore = true) (hg : w.generateKey = .ok k) :
    (createAccount L w ctx).events =
      (keystoreBlock L w ctx k { events := [.generateKey], clock := 0 }).state.events := by
  rw [createAccount_genOk L w ctx k (by simp [hk]) hg]
  simp only [runHandler, bind_apply, hp, hk, if_true]
  cases keystoreBlock L w ctx k { events := [.generateKey], clock := 0 } with
  | stop o s1 => rfl
  | ok u s1 => rfl

/-- The run of `createAccount` with `priv` set and `keystore` unset. -/
theorem createAccount_privOnly (L : Lib) (w : World) (ctx : CreateCtx) (k : PrivateKey)
    (hp : ctx.priv = true) (hk : ctx.keystore = false) (hg : w.generateKey = .ok k) :
    (createAccount L w ctx).events =
      (privBlock L w ctx k { events := [.generateKey], clock := 0 }).state.events := by
  rw [createAccount_genOk L w ctx k (by simp [hp]) hg]
  simp only [runHandler, bind_apply, hp, hk, if_true, Bool.false_eq_true, if_false, pure,
    Prog.pure]
  cases privBlock L w ctx k { events := [.generateKey], clock := 0 } with
  | stop o s1 => rfl
  | ok u s1 => rfl

/-- With `keystore` set, the events of a run of `createAccount` extend those of
the keystore block. -/
theorem createAccount_events_keystore (L : Lib) (w : World) (ctx : CreateCtx) (k : PrivateKey)
    (hk : ctx.keystore = true) (hg : w.generateKey = .ok k) :
    ∃ more, (createAccount L w ctx).events =
      (keystoreBlock L w ctx k { events := [.generateKey], clock := 0 }).state.events ++ more := by
  cases hp : ctx.priv with
  | false => exact ⟨[], by rw [createAccount_keystoreOnly L w ctx k hp hk hg]; simp⟩
  | true =>
    rw [createAccount_both L w ctx k hp hk hg]
    cases hkb : keystoreBlock L w ctx k { events := [.generateKey], clock := 0 } with
    | stop o s1 => exact ⟨[], by simp [Res.state]⟩
    | ok u s1 =>
      obtain ⟨more, hm, -⟩ := spec_events (spec_privBlock L w ctx k) s1
      exact ⟨more, by simpa [Res.state] using hm⟩

/-- With the same non-empty passphrase read twice, the events of the keystore
block go up to the call of `keystore.EncryptKey` on the record of the key. -/
theorem keystoreBlock_built (L : Lib) (w : World) (ctx : CreateCtx) (k : PrivateKey)
    (p : String) (s : St) (h1 : w.tty "Enter passphrase: " = .ok p)
    (h2 : w.tty "Confirm passphrase: " = .ok p) (hne : p ≠ "") :
    ∃ rest, (keystoreBlock L w ctx k s).state.events =
      s.events ++ (ttyEvents "Enter passphrase: " ++ (ttyEvents "Confirm passphrase: " ++
        .encryptKey (keystoreKeyOf L w k) p StandardScryptN StandardScryptP :: rest)) := by
  rw [keystoreBlock_reads L w ctx k p s h1 h2 hne, bind_apply]
  cases hj : L.encryptKey (keystoreKeyOf L w k) p StandardScryptN StandardScryptP w.rand with
  | error err => exact ⟨[], by simp [orReturn, returnErr, Res.state]⟩
  | ok keyjson =>
    simp only [orReturn, pure, Prog.pure]
    obtain ⟨mid, hmid, -⟩ :=
      spec_events (spec_keystoreOutput L w ctx k keyjson ⟨p, h1, hj⟩)
        { events := s.events ++ (ttyEvents "Enter passphrase: " ++
            (ttyEvents "Confirm passphrase: " ++
              [.encryptKey (keystoreKeyOf L w k) p StandardScryptN StandardScryptP]))
          clock := s.clock }
    exact ⟨mid, by rw [hmid]; simp [List.append_assoc]⟩

/-- When the keystore block lets the run go on, a run of `createAccount` with
`priv` and `keystore` set has read the same non-empty passphrase twice,
encrypted the record of the generated key and printed the lines of that key. -/
theorem createAccount_both_ok (L : Lib) (w : World) (ctx : CreateCtx) (k : PrivateKey)
    (hp : ctx.priv = true) (hk : ctx.keystore = true) (hg : w.generateKey = .ok k)
    (u : Unit) (s1 : St)
    (hkb : keystoreBlock L w ctx k { events := [.generateKey], clock := 0 } = .ok u s1) :
    ∃ p keyjson mid more, w.tty "Enter passphrase: " = .ok p ∧
      w.tty "Confirm passphrase: " = .ok p ∧ p ≠ "" ∧
      L.encryptKey (keystoreKeyOf L w k) p StandardScryptN StandardScryptP w.rand
        = .ok keyjson ∧
      (createAccount L w ctx).events =
        .generateKey :: (ttyEvents "Enter passphrase: " ++
          (ttyEvents "Confirm passphrase: " ++
            .encryptKey (keystoreKeyOf L w k) p StandardScryptN StandardScryptP ::
              (mid ++ (privPrints L k ++ more)))) ∧
      (∀ e ∈ mid, KeystoreAllows L w ctx k e) ∧ ∀ e ∈ more, PrivAllows w ctx k e := by
  rw [createAccount_both L w ctx k hp hk hg, hkb]
  obtain ⟨p, keyjson, mid, h1, h2, hne, hj, hev, hP⟩ := keystoreBlock_ok L w ctx k _ s1 u hkb
  obtain ⟨more, hmore⟩ := privBlock_prints L w ctx k s1
  obtain ⟨evs2, he2, hP2⟩ := spec_events (spec_privBlock L w ctx k) s1
  have hev2 : evs2 = privPrints L k ++ more := by
    rw [he2] at hmore
    exact List.append_cancel_left hmore
  refine ⟨p, keyjson, mid, more, h1, h2, hne, hj, ?_, hP, ?_⟩
  · dsimp only
    rw [hmore, hev]
    simp [List.append_assoc]
  · intro e he
    exact hP2 e (by rw [hev2]; exact List.mem_append_right _ he)

/-- A run of `createAccount` with `priv` and `keystore` set either ends in the
keystore block, not with nil, or reads the same non-empty passphrase twice,
encrypts the record of the generated key and prints the lines of that key. -/
theorem createAccount_both_cases (L : Lib) (w : World) (ctx : CreateCtx) (k : PrivateKey)
    (hp : ctx.priv = true) (hk : ctx.keystore = true) (hg : w.generateKey = .ok k) :
    ((createAccount L w ctx).outcome ≠ .ret none ∧
        ∃ evs, (createAccount L w ctx).events = .generateKey :: evs ∧
          ∀ e ∈ evs, KeystoreAllows L w ctx k e) ∨
      ∃ p keyjson mid more, w.tty "Enter passphrase: " = .ok p ∧
        w.tty "Confirm passphrase: " = .ok p ∧ p ≠ "" ∧
        L.encryptKey (keystoreKeyOf L w k) p StandardScryptN StandardScryptP w.rand
          = .ok keyjson ∧
        (createAccount L w ctx).events =
          .generateKey :: (ttyEvents "Enter passphrase: " ++
            (ttyEvents "Confirm passphrase: " ++
              .encryptKey (keystoreKeyOf L w k) p StandardScryptN StandardScryptP ::
                (mid ++ (privPrints L k ++ more)))) ∧
        (∀ e ∈ mid, KeystoreAllows L w ctx k e) ∧ ∀ e ∈ more, PrivAllows w ctx k e := by
  cases hkb : keystoreBlock L w ctx k { events := [.generateKey], clock := 0 } with
  | stop o s1 =>
    left
    rw [createAccount_both L w ctx k hp hk hg, hkb]
    obtain ⟨⟨evs, hev, hP⟩, hq⟩ :=
      spec_keystoreBlock L w ctx k { events := [.generateKey], clock := 0 }
    rw [hkb] at hev hq
    exact ⟨hq, evs, by simpa [Res.state] using hev, hP⟩
  | ok u s1 => exact Or.inr (createAccount_both_ok L w ctx k hp hk hg u s1 hkb)

/-- With `priv` and `keystore` set, the same non-empty passphrase read twice,
the keystore encrypted and its output done, the run of `createAccount` goes on
to print the lines of the generated key, whatever happens next. -/
theorem createAccount_both_printed (L : Lib) (w : World) (ctx : CreateCtx) (k : PrivateKey)
    (hp : ctx.priv = true) (hk : ctx.keystore = true) (hg : w.generateKey = .ok k)
    (p : String) (keyjson : Bytes) (h1 : w.tty "Enter passphrase: " = .ok p)
    (h2 : w.tty "Confirm passphrase: " = .ok p) (hne : p ≠ "")
    (hj : L.encryptKey (keystoreKeyOf L w k) p StandardScryptN StandardScryptP w.rand
      = .ok keyjson)
    (hx : ctx.exportFlag = false ∨
      (ctx.dir = "" ∧
        w.writeFile (Join w.goos [defaultDataDir w, "KeyStore", w.now 0]) keyjson = none) ∨
      (ctx.dir ≠ "" ∧ w.mkdirAll (Join w.goos [ctx.dir, "KeyStore"]) = none ∧
        w.writeFile (Join w.goos [Join w.goos [ctx.dir, "KeyStore"], w.now 1]) keyjson = none)) :
    ∃ mid more, (createAccount L w ctx).events =
      .generateKey :: (ttyEvents "Enter passphrase: " ++
        (ttyEvents "Confirm passphrase: " ++
          .encryptKey (keystoreKeyOf L w k) p StandardScryptN StandardScryptP ::
            (mid ++ (privPrints L k ++ more)))) := by
  obtain ⟨s1, hs1⟩ := keystoreOutput_ok w ctx keyjson
    { events := [Event.generateKey] ++ (ttyEvents "Enter passphrase: " ++
        (ttyEvents "Confirm passphrase: " ++
          [.encryptKey (keystoreKeyOf L w k) p StandardScryptN StandardScryptP]))
      clock := 0 } hx
  have hkb : keystoreBlock L w ctx k { events := [.generateKey], clock := 0 } = .ok () s1 := by
    rw [keystoreBlock_reads L w ctx k p _ h1 h2 hne, bind_apply]
    simp only [orReturn, hj, pure, Prog.pure]
    exact hs1
  obtain ⟨p2, keyjson2, mid, more, h1b, -, -, -, hev, -, -⟩ :=
    createAccount_both_ok L w ctx k hp hk hg () s1 hkb
  have hpp : p2 = p := by rw [h1] at h1b; injection h1b with h; exact h.symm
  subst hpp
  exact ⟨mid, more, hev⟩

/-! ## One key for the keystore and the printed lines -/

/-- C3: a run of `createAccount` asks the key generator for exactly one key pair
when `priv` or `keystore` is set and for none otherwise.  For the generated key
`k`: every call of `keystore.EncryptKey` is on `k` itself with the address of
the public key of `k`, and a saved private key is `k`.  With `keystore` set and
the same non-empty passphrase read twice, the run does call
`keystore.EncryptKey`, on the record made of `k`, of the address of its public
key and of the new uuid.  With `priv` set and `keystore` unset the run prints
the hex of `k` and the hex of that address right after the key generation.
With both set, every run either ends in the keystore block, with an error or an
exit, or consists of the key generation, the two passphrase reads, the call of
`keystore.EncryptKey` on that record, the output of the keystore, the lines
with the hex of `k` and the hex of that same address, and what the export of
the private key adds, whether or not that export succeeds; and the run is of
the second kind whenever the passphrase reads agree on a non-empty passphrase,
the encryption succeeds and the keystore file, if any, is written. -/
theorem createAccount_single_key (L : Lib) (w : World) (ctx : CreateCtx) :
    ((createAccount L w ctx).events.filter Event.isGenerateKey).length
        = (if ctx.priv || ctx.keystore then 1 else 0) ∧
      ∀ k, w.generateKey = .ok k →
        (∀ key auth n p, Event.encryptKey key auth n p ∈ (createAccount L w ctx).events →
          key.privateKey = k ∧ key.address = L.pubkeyToAddress k.publicKey) ∧
        (∀ path key, Event.saveECDSA path key ∈ (createAccount L w ctx).events → key = k) ∧
        (ctx.keystore = true → ∀ p, w.tty "Enter passphrase: " = .ok p →
          w.tty "Confirm passphrase: " = .ok p → p ≠ "" →
          ∃ rest, (createAccount L w ctx).events =
            .generateKey :: (ttyEvents "Enter passphrase: " ++
              (ttyEvents "Confirm passphrase: " ++
                .encryptKey
                  { privateKey := k, address := L.pubkeyToAddress k.publicKey, id := w.uuid }
                  p StandardScryptN StandardScryptP :: rest))) ∧
        (ctx.priv = true → ctx.keystore = false →
          ∃ more, (createAccount L w ctx).events = .generateKey :: (privPrints L k ++ more)) ∧
        (ctx.priv = true → ctx.keystore = true →
          ((createAccount L w ctx).outcome ≠ .ret none ∧
              ∃ evs, (createAccount L w ctx).events = .generateKey :: evs ∧
                ∀ e ∈ evs, KeystoreAllows L w ctx k e) ∨
            ∃ p keyjson mid more, w.tty "Enter passphrase: " = .ok p ∧
              w.tty "Confirm passphrase: " = .ok p ∧ p ≠ "" ∧
              L.encryptKey
                  { privateKey := k, address := L.pubkeyToAddress k.publicKey, id := w.uuid }
                  p StandardScryptN StandardScryptP w.rand = .ok keyjson ∧
              (createAccount L w ctx).events =
                .generateKey :: (ttyEvents "Enter passphrase: " ++
                  (ttyEvents "Confirm passphrase: " ++
                    .encryptKey
                      { privateKey := k, address := L.pubkeyToAddress k.publicKey, id := w.uuid }
                      p StandardScryptN StandardScryptP ::
                      (mid ++ (privPrints L k ++ more)))) ∧
              (∀ e ∈ mid, KeystoreAllows L w ctx k e) ∧ ∀ e ∈ more, PrivAllows w ctx k e) ∧
        (ctx.priv = true → ctx.keystore = true → ∀ p keyjson,
          w.tty "Enter passphrase: " = .ok p → w.tty "Confirm passphrase: " = .ok p → p ≠ "" →
          L.encryptKey
              { privateKey := k, address := L.pubkeyToAddress k.publicKey, id := w.uuid }
              p StandardScryptN StandardScryptP w.rand = .ok keyjson →
          (ctx.exportFlag = false ∨
            (ctx.dir = "" ∧
              w.writeFile (Join w.goos [defaultDataDir w, "KeyStore", w.now 0]) keyjson = none) ∨
            (ctx.dir ≠ "" ∧ w.mkdirAll (Join w.goos [ctx.dir, "KeyStore"]) = none ∧
              w.writeFile (Join w.goos [Join w.goos [ctx.dir, "KeyStore"], w.now 1]) keyjson
                = none)) →
          ∃ mid more, (createAccount L w ctx).events =
            .generateKey :: (ttyEvents "Enter passphrase: " ++
              (ttyEvents "Confirm passphrase: " ++
                .encryptKey
                  { privateKey := k, address := L.pubkeyToAddress k.publicKey, id := w.uuid }
                  p StandardScryptN StandardScryptP ::
                  (mid ++ (privPrints L k ++ more))))) := by
  constructor
  · by_cases hsel : (ctx.priv || ctx.keystore) = true
    · rw [if_pos hsel]
      cases hg : w.generateKey with
      | error err =>
        rw [createAccount_genError L w ctx err hsel hg]
        simp [Event.isGenerateKey]
      | ok k =>
        obtain ⟨evs1, evs2, hev, h1, h2⟩ := createAccount_run L w ctx k hsel hg
        rw [hev]
        have hnone : (evs1 ++ evs2).filter Event.isGenerateKey = [] := by
          rw [List.filter_eq_nil_iff]
          intro e he
          rcases List.mem_append.1 he with h | h
          · simp [keystoreAllows_not_generateKey (h1 e h).2]
          · rcases h2 with ⟨rfl, -⟩ | ⟨-, -, hP⟩
            · simp at h
            · simp [privAllows_not_generateKey (hP e h)]
        simp [List.filter_cons, Event.isGenerateKey, hnone]
    · have hp : ctx.priv = false := by cases h : ctx.priv <;> simp_all
      have hk : ctx.keystore = false := by cases h : ctx.keystore <;> simp_all
      rw [createAccount_noFlag L w ctx hp hk]
      simp [hp, hk, Event.isGenerateKey]
  · intro k hg
    refine ⟨?_, ?_, ?_, ?_, ?_, ?_⟩
    · intro key auth n p he
      rcases createAccount_event_cases L w ctx _ he with h | h | ⟨k2, hg2, h⟩
      · cases h
      · simp [Event.isPrintln] at h
      · have hk : k2 = k := by rw [hg] at hg2; injection hg2 with h; exact h.symm
        subst hk
        rcases h with ⟨-, h⟩ | ⟨-, h⟩
        · have := h.1
          subst this
          exact ⟨rfl, rfl⟩
        · exact absurd h (by simp [PrivAllows])
    · intro path key he
      rcases createAccount_event_cases L w ctx _ he with h | h | ⟨k2, hg2, h⟩
      · cases h
      · simp [Event.isPrintln] at h
      · have hk : k2 = k := by rw [hg] at hg2; injection hg2 with h; exact h.symm
        subst hk
        rcases h with ⟨-, h⟩ | ⟨-, h⟩
        · exact absurd h (by simp [KeystoreAllows])
        · exact h.2.1
    · intro hk p h1 h2 hne
      obtain ⟨more, hm⟩ := createAccount_events_keystore L w ctx k hk hg
      obtain ⟨rest, hr⟩ := keystoreBlock_built L w ctx k p
        { events := [.generateKey], clock := 0 } h1 h2 hne
      refine ⟨rest ++ more, ?_⟩
      rw [hm, hr]
      simp [List.append_assoc, keystoreKeyOf]
    · intro hp hk
      obtain ⟨more, hm⟩ := privBlock_prints L w ctx k { events := [.generateKey], clock := 0 }
      exact ⟨more, by rw [createAccount_privOnly L w ctx k hp hk hg, hm]; rfl⟩
    · intro hp hk
      exact createAccount_both_cases L w ctx k hp hk hg
    · intro hp hk p keyjson h1 h2 hne hj hx
      exact createAccount_both_printed L w ctx k hp hk hg p keyjson h1 h2 hne hj hx

/-- The run with both flags, `export` and the `dir` `/tmp/x` where creating
`/tmp/x/PrivateKey` fails: the keystore is encrypted from the generated key and
written, the hex of that key and of its address are printed, and the run exits
with status 1. -/
theorem createAccount_single_key_witness :
    (∃ mid more,
        (createAccount sampleLib (deniedWorld "/tmp/x/PrivateKey")
          { priv := true, keystore := true, exportFlag := true, dir := "/tmp/x" }).events =
          .generateKey :: (ttyEvents "Enter passphrase: " ++
            (ttyEvents "Confirm passphrase: " ++
              .encryptKey { privateKey := sampleKey, address := [3, 4], id := [1] } "pw"
                  StandardScryptN StandardScryptP ::
                (mid ++ (privPrints sampleLib sampleKey ++ more))))) ∧
      (createAccount sampleLib (deniedWorld "/tmp/x/PrivateKey")
          { priv := true, keystore := true, exportFlag := true, dir := "/tmp/x" }) =
        { events :=
            [ .generateKey,
              .ttyOpen, .ttyPrompt "Enter passphrase: ", .ttyRead, .ttyClose,
              .ttyOpen, .ttyPrompt "Confirm passphrase: ", .ttyRead, .ttyClose,
              .encryptKey { privateKey := sampleKey, address := [3, 4], id := [1] } "pw"
                StandardScryptN StandardScryptP,
              .mkdirAll "/tmp/x/KeyStore" 0o700,
              .writeFile "/tmp/x/KeyStore/2026-11-04 10:05:01 +0000 UTC" [5, 3, 4, 112, 119] 0o600,
              .println "KeyStore has been saved at: /tmp/x/KeyStore/2026-11-04 10:05:01 +0000 UTC",
              .println "=================================",
              .println "==== your private key of hex ====",
              .println "0x05",
              .println "========= your address ==========",
              .println "0x0304",
              .println "=================================",
              .mkdirAll "/tmp/x/PrivateKey" 0o700,
              .fatalPrint .both
                "Fatal: create PrivateKey dir [/tmp/x/PrivateKey]: permission denied\n" ]
          outcome := .exit 1 } :=
  ⟨(createAccount_single_key sampleLib (deniedWorld "/tmp/x/PrivateKey")
      { priv := true, keystore := true, exportFlag := true, dir := "/tmp/x" }).2 sampleKey rfl
      |>.2.2.2.2.2 rfl rfl "pw" [5, 3, 4, 112, 119] rfl rfl (by decide) rfl
        (Or.inr (Or.inr ⟨by decide, by decide, rfl⟩)),
    by decide⟩

/-! ## The directories `makeDefaultDir` creates and the default export paths -/

/-- C10 (fails on windows): with the home directory `c:d:.` on windows,
`makeDefaultDir` creates `c:d:.\AppData\Roaming\Account\PrivateKey` and
`c:d:.\AppData\Roaming\Account\KeyStore`, and `createAccount` with `export` and
no `dir` writes the keystore and the private key into files of these two
directories; but `filepath.Dir` of the two files is
`c:d:AppData\Roaming\Account\KeyStore` and
`c:d:AppData\Roaming\Account\PrivateKey`: it cleans what follows the volume
`c:` as a path of its own, takes `d:` for a volume name there and drops the
`.` after it.  Neither parent directory is a directory `makeDefaultDir` created. -/
theorem makeDefaultDir_directories_counterexample :
    homeDir (windowsWorld "c:d:.") = "c:d:." ∧
      isFileName "windows" "2026-11-04 10:05:00 +0000 UTC" = true ∧
      runMakeDefaultDir (windowsWorld "c:d:.") =
        { events :=
            [ .mkdirAll "c:d:.\\AppData\\Roaming\\Account\\PrivateKey" 0o700,
              .mkdirAll "c:d:.\\AppData\\Roaming\\Account\\KeyStore" 0o700 ]
          outcome := .ret none } ∧
      Join "windows" [defaultDataDir (windowsWorld "c:d:."), "KeyStore"]
        = "c:d:.\\AppData\\Roaming\\Account\\KeyStore" ∧
      Join "windows" [defaultDataDir (windowsWorld "c:d:."), "PrivateKey"]
        = "c:d:.\\AppData\\Roaming\\Account\\PrivateKey" ∧
      (createAccount sampleLib (windowsWorld "c:d:.")
          { priv := true, keystore := true, exportFlag := true, dir := "" }).events.filter
            Event.isFsWrite
        = [ .writeFile
              (Join "windows" [defaultDataDir (windowsWorld "c:d:."), "KeyStore",
                "2026-11-04 10:05:00 +0000 UTC"]) [5, 3, 4, 112, 119] 0o600,
            .saveECDSA
              (Join "windows" [defaultDataDir (windowsWorld "c:d:."), "PrivateKey",
                "2026-11-04 10:05:01 +0000 UTC"]) sampleKey ] ∧
      Join "windows" [defaultDataDir (windowsWorld "c:d:."), "KeyStore",
          "2026-11-04 10:05:00 +0000 UTC"]
        = "c:d:.\\AppData\\Roaming\\Account\\KeyStore\\2026-11-04 10:05:00 +0000 UTC" ∧
      Dir "windows" (Join "windows" [defaultDataDir (windowsWorld "c:d:."), "KeyStore",
          "2026-11-04 10:05:00 +0000 UTC"])
        = "c:d:AppData\\Roaming\\Account\\KeyStore" ∧
      Dir "windows" (Join "windows" [defaultDataDir (windowsWorld "c:d:."), "PrivateKey",
          "2026-11-04 10:05:01 +0000 UTC"])
        = "c:d:AppData\\Roaming\\Account\\PrivateKey" ∧
      Dir "windows" (Join "windows" [defaultDataDir (windowsWorld "c:d:."), "KeyStore",
          "2026-11-04 10:05:00 +0000 UTC"])
        ≠ Join "windows" [defaultDataDir (windowsWorld "c:d:."), "KeyStore"] ∧
      Dir "windows" (Join "windows" [defaultDataDir (windowsWorld "c:d:."), "KeyStore",
          "2026-11-04 10:05:00 +0000 UTC"])
        ≠ Join "windows" [defaultDataDir (windowsWorld "c:d:."), "PrivateKey"] := by
  decide

/-- C10 (amended): for a non-empty home directory and any operating system name,
`makeDefaultDir` calls `os.MkdirAll` only on `Join(defaultDataDir(), "PrivateKey")`
and `Join(defaultDataDir(), "KeyStore")`, with mode 0700, and when both calls
succeed its run is exactly these two calls; the default export paths of
`createAccount` when `dir` is empty are `Join(defaultDataDir(), "KeyStore", ts)`
and `Join(defaultDataDir(), "PrivateKey", ts)`.  For a timestamp `ts` that is a
file name of the platform, the parent directories of these paths are those two
directories when the operating system is not windows and the home directory is
not empty, and on windows when the home directory is an absolute path (a volume
name followed by a separator).  With an empty home directory `makeDefaultDir`
does nothing. -/
theorem makeDefaultDir_directories (L : Lib) (w : World) :
    (homeDir w ≠ "" →
      (∀ path perm, Event.mkdirAll path perm ∈ (runMakeDefaultDir w).events →
        perm = 0o700 ∧
          (path = Join w.goos [defaultDataDir w, "PrivateKey"] ∨
            path = Join w.goos [defaultDataDir w, "KeyStore"])) ∧
      (w.mkdirAll (Join w.goos [defaultDataDir w, "PrivateKey"]) = none →
        w.mkdirAll (Join w.goos [defaultDataDir w, "KeyStore"]) = none →
        runMakeDefaultDir w =
          { events :=
              [ .mkdirAll (Join w.goos [defaultDataDir w, "PrivateKey"]) 0o700,
                .mkdirAll (Join w.goos [defaultDataDir w, "KeyStore"]) 0o700 ]
            outcome := .ret none })) ∧
      ((w.goos ≠ "windows" ∧ homeDir w ≠ "") ∨
          (w.goos = "windows" ∧ winIsAbs (homeDir w) = true) →
        ∀ ts, isFileName w.goos ts = true →
          Dir w.goos (Join w.goos [defaultDataDir w, "KeyStore", ts])
              = Join w.goos [defaultDataDir w, "KeyStore"] ∧
            Dir w.goos (Join w.goos [defaultDataDir w, "PrivateKey", ts])
              = Join w.goos [defaultDataDir w, "PrivateKey"]) ∧
      (∀ ctx : CreateCtx, ctx.dir = "" →
        (∀ path data perm, Event.writeFile path data perm ∈ (createAccount L w ctx).events →
          ∃ n, path = Join w.goos [defaultDataDir w, "KeyStore", w.now n]) ∧
        (∀ path key, Event.saveECDSA path key ∈ (createAccount L w ctx).events →
          ∃ n, path = Join w.goos [defaultDataDir w, "PrivateKey", w.now n])) ∧
      (homeDir w = "" → runMakeDefaultDir w = { events := [], outcome := .ret none }) := by
  refine ⟨fun h => ⟨?_, ?_⟩, ?_, ?_, runMakeDefaultDir_noHome w⟩
  · intro path perm he
    rw [runMakeDefaultDir_run w h] at he
    cases h1 : w.mkdirAll (Join w.goos [defaultDataDir w, "PrivateKey"]) with
    | some err =>
      rw [h1] at he
      simp only [List.mem_cons, List.mem_singleton, List.not_mem_nil, or_false] at he
      rcases he with he | he
      · injection he with hp hm
        exact ⟨hm, Or.inl hp⟩
      · cases he
    | none =>
      rw [h1] at he
      cases h2 : w.mkdirAll (Join w.goos [defaultDataDir w, "KeyStore"]) with
      | some err =>
        rw [h2] at he
        simp only [List.mem_cons, List.mem_singleton, List.not_mem_nil, or_false] at he
        rcases he with he | he | he
        · injection he with hp hm
          exact ⟨hm, Or.inl hp⟩
        · injection he with hp hm
          exact ⟨hm, Or.inr hp⟩
        · cases he
      | none =>
        rw [h2] at he
        simp only [List.mem_cons, List.mem_singleton, List.not_mem_nil, or_false] at he
        rcases he with he | he
        · injection he with hp hm
          exact ⟨hm, Or.inl hp⟩
        · injection he with hp hm
          exact ⟨hm, Or.inr hp⟩
  · intro h1 h2
    rw [runMakeDefaultDir_run w h, h1, h2]
  · intro hw ts hts
    exact ⟨Dir_defaultDataDir_file w hw "KeyStore" ts
        (plainComp_names _ ["KeyStore"] (by cases decide (w.goos = "windows") <;> decide) _
          (by simp)) hts,
      Dir_defaultDataDir_file w hw "PrivateKey" ts
        (plainComp_names _ ["PrivateKey"] (by cases decide (w.goos = "windows") <;> decide) _
          (by simp)) hts⟩
  · intro ctx hdir
    constructor
    · intro path data perm he
      rcases createAccount_event_cases L w ctx _ he with h | h | ⟨k, -, h⟩
      · cases h
      · simp [Event.isPrintln] at h
      · rcases h with ⟨-, h⟩ | ⟨-, h⟩
        · obtain ⟨n, hn⟩ := h.2.2.2
          rw [if_neg (by simp [hdir])] at hn
          exact ⟨n, hn⟩
        · exact absurd h (by simp [PrivAllows])
    · intro path key he
      rcases createAccount_event_cases L w ctx _ he with h | h | ⟨k, -, h⟩
      · cases h
      · simp [Event.isPrintln] at h
      · rcases h with ⟨-, h⟩ | ⟨-, h⟩
        · exact absurd h (by simp [KeystoreAllows])
        · obtain ⟨n, hn⟩ := h.2.2
          rw [if_neg (by simp [hdir])] at hn
          exact ⟨n, hn⟩

/-- The sample run of `makeDefaultDir` on Linux, and the parents of the default
export paths on Linux and, for the home directory `C:\Users\u`, on windows. -/
theorem makeDefaultDir_directories_witness :
    runMakeDefaultDir (sampleWorld "pw" "pw") =
        { events :=
            [ .mkdirAll "/home/u/Account/PrivateKey" 0o700,
              .mkdirAll "/home/u/Account/KeyStore" 0o700 ]
          outcome := .ret none } ∧
      Dir "linux" (Join "linux" [defaultDataDir (sampleWorld "pw" "pw"), "KeyStore",
          "2026-11-04 10:05:00 +0000 UTC"]) = "/home/u/Account/KeyStore" ∧
      Dir "windows" (Join "windows" [defaultDataDir (windowsWorld "C:\\Users\\u"), "PrivateKey",
          "2026-11-04 10:05:01 +0000 UTC"]) = "C:\\Users\\u\\AppData\\Roaming\\Account\\PrivateKey" :=
  ⟨((makeDefaultDir_directories sampleLib (sampleWorld "pw" "pw")).1 (by decide)).2 rfl rfl,
    ((makeDefaultDir_directories sampleLib (sampleWorld "pw" "pw")).2.1
      (Or.inl ⟨by decide, by decide⟩) "2026-11-04 10:05:00 +0000 UTC" (by decide)).1,
    ((makeDefaultDir_directories sampleLib (windowsWorld "C:\\Users\\u")).2.1
      (Or.inr ⟨rfl, by decide⟩) "2026-11-04 10:05:01 +0000 UTC" (by decide)).2⟩

/-! ## The private key path with a `dir` -/

/-- C1 (fails on the code): with `priv`, `export` and `dir` set to `/tmp/x`,
`createAccount` creates the directory `/tmp/x/PrivateKey` and then saves the key
in `/tmp/x/PrivateKey/PrivateKey`, a directory it never created; the keystore
export of the same run writes into the directory `/tmp/x/KeyStore` it created. -/
theorem createAccount_priv_dir_not_created :
    (createAccount sampleLib (sampleWorld "pw" "pw")
        { priv := true, keystore := true, exportFlag := true, dir := "/tmp/x" }).events.filter
          Event.isFsWrite
      = [ .mkdirAll "/tmp/x/KeyStore" 0o700,
          .writeFile "/tmp/x/KeyStore/2026-11-04 10:05:01 +0000 UTC" [5, 3, 4, 112, 119] 0o600,
          .mkdirAll "/tmp/x/PrivateKey" 0o700,
          .saveECDSA "/tmp/x/PrivateKey/PrivateKey/2026-11-04 10:05:03 +0000 UTC" sampleKey ] ∧
      Dir "linux" "/tmp/x/KeyStore/2026-11-04 10:05:01 +0000 UTC" = "/tmp/x/KeyStore" ∧
      Dir "linux" "/tmp/x/PrivateKey/PrivateKey/2026-11-04 10:05:03 +0000 UTC"
        = "/tmp/x/PrivateKey/PrivateKey" ∧
      Dir "linux" "/tmp/x/PrivateKey/PrivateKey/2026-11-04 10:05:03 +0000 UTC"
        ≠ "/tmp/x/PrivateKey" := by
  decide
end Ecp
